import Mathlib

/-!
# SelectableText

A shallow embedding of `src/incl/selectableText.h`: the format-string parser
`selectableText_loadFmtString`, the key decoder `read_action` and the
selection loop `selectableText_promptUser`, followed by theorems about them.

Representation choices.

* `size_t` is a natural number below `2^64`; subtraction wraps (`szSub`).
* `char` is a byte, a natural number below `256`; two `char`s compare equal
  exactly when their bytes are equal, whatever the signedness of `char`.
* A C string is the list of its bytes before the terminating NUL, and `NULL`
  is `none`.
* A heap array is the list of the cells written so far.
* Standard input is the list of bytes still to be read; standard output is the
  list of library calls made (`printf("%s", s)` and `putchar(c)`).
* The `termios` calls of `read_action` and the call `fflush(stdout)` do not
  touch any of this and are left out.
-/

namespace SelText

/-! ## Machine integers and constants -/

/-- The value `(size_t)-1`. -/
def SIZE_MAX : Nat := 2 ^ 64 - 1

/-- Subtraction of two `size_t` values: the result wraps modulo `2^64`. -/
def szSub (a b : Nat) : Nat := (a % 2 ^ 64 + (2 ^ 64 - b % 2 ^ 64)) % 2 ^ 64

/-- The conversion `(char)v` of an integer constant: its low eight bits. -/
def toChar (v : Nat) : Nat := v % 256

/-- The macro `KEY_ENTER`, the line feed character. -/
def KEY_ENTER : Nat := 10

/-- The macro `KEY_UP`, `(char)1001`. -/
def KEY_UP : Nat := toChar 1001

/-- The macro `KEY_DOWN`, `(char)1002`. -/
def KEY_DOWN : Nat := toChar 1002

/-- The macro `KEY_RIGHT`, `(char)1003`. -/
def KEY_RIGHT : Nat := toChar 1003

/-- The macro `KEY_LEFT`, `(char)1004`. -/
def KEY_LEFT : Nat := toChar 1004

/-- The backtick character, the delimiter of the format string. -/
def BACKTICK : Nat := 96

/-- The bytes of an ASCII string literal. -/
def cstr (s : String) : List Nat := s.toList.map Char.toNat

/-! ## Data model -/

/-- The struct `Action`: inclusive offsets into the plain text. -/
structure Action where
  start_pos : Nat
  end_pos : Nat
  deriving DecidableEq, Repr

/-- The struct `Actions`: a growable array; `items` holds the cells
`0 .. count - 1` of the heap block, `none` is the `NULL` pointer. -/
structure Actions where
  items : Option (List Action)
  count : Nat
  capacity : Nat
  deriving DecidableEq, Repr

/-- The struct `SelectableText`. -/
structure SelectableText where
  fmt_text : Option (List Nat)
  text : Option (List Nat)
  count : Nat
  actions : Actions
  deriving DecidableEq, Repr

/-- Whether the two allocations of `selectableText_loadFmtString` succeed.
(`realloc` in `actions_append` is taken to succeed: its failure path ends the
process.) -/
structure Alloc where
  malloc_ok : Bool
  strdup_ok : Bool
  deriving DecidableEq, Repr

/-! ## The action array -/

/-- The function `actions_append`: grow the block when it is full (capacity
`1`, then doubling), then write `x` at index `count` and increment `count`. -/
def actions_append (x : Action) (acts : Actions) : Actions :=
  let acts1 : Actions :=
    if acts.count ≥ acts.capacity then
      let new_capacity := if acts.capacity = 0 then 1 else acts.capacity * 2
      { items := some (acts.items.getD []), count := acts.count, capacity := new_capacity }
    else acts
  { items := some (acts1.items.getD [] ++ [x]), count := acts1.count + 1,
    capacity := acts1.capacity }

/-- The function `actions_free`. -/
def actions_free (_acts : Actions) : Actions :=
  { items := none, count := 0, capacity := 0 }

/-! ## The parser -/

/-- The local variables of `selectableText_loadFmtString` that its scan loop
updates, with the action array of the instance. -/
structure ScanState where
  start_raw : Nat
  backticks_seen : Nat
  plain_index : Nat
  plain : List Nat
  actions : Actions
  deriving DecidableEq, Repr

/-- One iteration of the scan loop of `selectableText_loadFmtString`, at raw
index `i` on the character `c`. -/
def loadFmtString_body (i c : Nat) (s : ScanState) : ScanState :=
  if c = BACKTICK then
    let backticks_seen := s.backticks_seen + 1
    if s.start_raw = SIZE_MAX then
      { s with backticks_seen := backticks_seen, start_raw := i }
    else
      let end_raw := i
      let start_plain := szSub s.start_raw (szSub backticks_seen 2)
      let end_plain := szSub (szSub end_raw (szSub backticks_seen 1)) 1
      { s with
        backticks_seen := backticks_seen
        actions := actions_append ⟨start_plain, end_plain⟩ s.actions
        start_raw := SIZE_MAX }
  else
    { s with plain := s.plain ++ [c], plain_index := s.plain_index + 1 }

/-- The scan loop `for (i = 0; i < n; i++)` of `selectableText_loadFmtString`,
from raw index `i` over the characters still to be read. -/
def loadFmtString_loop : List Nat → Nat → ScanState → ScanState
  | [], _, s => s
  | c :: cs, i, s => loadFmtString_loop cs (i + 1) (loadFmtString_body i c s)

/-- The function `selectableText_loadFmtString`: the returned flag and the
instance `txt` points to after the call. When `strdup` fails, the `NULL` it
returned has already been stored into `txt->fmt_text`. -/
def selectableText_loadFmtString (al : Alloc) (fmt : Option (List Nat))
    (txt : Option SelectableText) : Bool × Option SelectableText :=
  match fmt, txt with
  | some fmt, some txt =>
    let txt : SelectableText := { txt with actions := { items := none, count := 0, capacity := 0 } }
    if !al.malloc_ok then (false, some txt)
    else
      let s := loadFmtString_loop fmt 0
        { start_raw := SIZE_MAX, backticks_seen := 0, plain_index := 0, plain := [],
          actions := txt.actions }
      if s.start_raw ≠ SIZE_MAX then
        (false, some { txt with actions := actions_free s.actions })
      else if !al.strdup_ok then
        (false, some { txt with fmt_text := none, actions := actions_free s.actions })
      else
        (true, some { fmt_text := some fmt, text := some (s.plain.take s.plain_index),
                      count := s.backticks_seen / 2, actions := s.actions })
  | _, _ => (false, txt)

/-! ## The key decoder -/

/-- The call `getchar()` stored into a `char`: the next byte of standard input,
or `(char)EOF`, the byte `255`, when the input is exhausted. -/
def getchar : List Nat → Nat × List Nat
  | [] => (255, [])
  | b :: rest => (b % 256, rest)

/-- The function `read_action`: the decoded key and the input left. -/
def read_action (stdin : List Nat) : Nat × List Nat :=
  let (out, stdin1) := getchar stdin
  if out = 27 then
    let (seq1, stdin2) := getchar stdin1
    let (seq2, stdin3) := getchar stdin2
    if seq1 = 91 then
      if seq2 = 65 then (KEY_UP, stdin3)
      else if seq2 = 66 then (KEY_DOWN, stdin3)
      else if seq2 = 67 then (KEY_RIGHT, stdin3)
      else if seq2 = 68 then (KEY_LEFT, stdin3)
      else (out, stdin3)
    else (out, stdin3)
  else if out = 13 ∨ out = 10 then (KEY_ENTER, stdin1)
  else (out, stdin1)

/-- The keys decoded by `n` successive calls of `read_action`, and the input left. -/
def read_keys : Nat → List Nat → List Nat × List Nat
  | 0, stdin => ([], stdin)
  | n + 1, stdin =>
    let (c, stdin1) := read_action stdin
    let (cs, stdin2) := read_keys n stdin1
    (c :: cs, stdin2)

/-! ## The selection loop -/

/-- One call written to standard output. -/
inductive Out where
  | printf (s : List Nat)
  | putchar (c : Nat)
  deriving DecidableEq, Repr

/-- The string `start_reverse`, `"\033[7m"`. -/
def start_reverse : List Nat := [27, 91, 55, 109]

/-- The string `end_reverse`, `"\033[0m"`. -/
def end_reverse : List Nat := [27, 91, 48, 109]

/-- The string `clear_screen`, `"\033[2J\033[H"`. -/
def clear_screen : List Nat := [27, 91, 50, 74, 27, 91, 72]

/-- The render loop of `selectableText_promptUser`, from index `i` over the
characters of `txt->text` still to be written. -/
def render_loop (act : Action) : List Nat → Nat → List Out → List Out
  | [], _, stdout => stdout
  | ch :: rest, i, stdout =>
    let stdout1 := if i = act.start_pos then stdout ++ [Out.printf start_reverse] else stdout
    let stdout2 := stdout1 ++ [Out.putchar ch]
    let stdout3 := if i = act.end_pos then stdout2 ++ [Out.printf end_reverse] else stdout2
    render_loop act rest (i + 1) stdout3

/-- The input handling of `selectableText_promptUser`: the new `action_index`
after the key `c`, with `count` the value of `txt->actions.count`. -/
def handle_input (c count action_index : Nat) : Nat :=
  if c = KEY_UP ∨ c = KEY_LEFT then
    if action_index > 0 then action_index - 1 else szSub count 1
  else if c = KEY_DOWN ∨ c = KEY_RIGHT then
    if action_index < szSub count 1 then action_index + 1 else 0
  else action_index

/-- How a call of `selectableText_promptUser` ends: it returns `v` with the
input left and the output written; or it reads outside the action array; or
the loop is still running when the fuel is spent. -/
inductive Outcome where
  | ret (v : Nat) (stdin : List Nat) (stdout : List Out)
  | fault
  | running
  deriving DecidableEq, Repr

/-- The `do ... while (c != KEY_ENTER)` loop of `selectableText_promptUser`,
run for at most `fuel` iterations. -/
def promptUser_loop (text : List Nat) (acts : Actions) :
    Nat → Nat → List Nat → List Out → Outcome
  | 0, _, _, _ => Outcome.running
  | fuel + 1, action_index, stdin, stdout =>
    let stdout1 := stdout ++ [Out.printf clear_screen]
    match (acts.items.getD [])[action_index]? with
    | none => Outcome.fault
    | some act =>
      let stdout2 := render_loop act text 0 stdout1
      let (c, stdin1) := read_action stdin
      let action_index1 := handle_input c acts.count action_index
      if c ≠ KEY_ENTER then promptUser_loop text acts fuel action_index1 stdin1 stdout2
      else Outcome.ret action_index1 stdin1 (stdout2 ++ [Out.printf end_reverse])

/-- The function `selectableText_promptUser`, its loop run for at most `fuel`
iterations. -/
def selectableText_promptUser (fuel : Nat) (txt : Option SelectableText)
    (stdin : List Nat) (stdout : List Out) : Outcome :=
  match txt with
  | none => Outcome.ret SIZE_MAX stdin stdout
  | some t =>
    match t.fmt_text, t.text with
    | some _, some text =>
      if t.count = 0 then Outcome.ret SIZE_MAX stdin stdout
      else promptUser_loop text t.actions fuel 0 stdin stdout
    | _, _ => Outcome.ret SIZE_MAX stdin stdout

/-- The function `selectableText_free`. -/
def selectableText_free (txt : SelectableText) : SelectableText :=
  { fmt_text := none, text := none, count := 0, actions := actions_free txt.actions }

/-! ## Specification vocabulary -/

/-- The number of backticks of a string. -/
def backticks (fmt : List Nat) : Nat := fmt.count BACKTICK

/-- The `i`-th delimiter pair (0-based) of `fmt` opens at raw index `o` and
closes at raw index `c`: both hold a backtick, `2 * i` backticks stand before
`o` and `2 * i + 1` before `c`. -/
def IsPair (fmt : List Nat) (i o c : Nat) : Prop :=
  fmt[o]? = some BACKTICK ∧ fmt[c]? = some BACKTICK ∧
  backticks (fmt.take o) = 2 * i ∧ backticks (fmt.take c) = 2 * i + 1

/-- The instance a successful load of `fmt` leaves behind. -/
def Loaded (fmt : List Nat) (txt : SelectableText) : Prop :=
  ∃ al t0, selectableText_loadFmtString al (some fmt) (some t0) = (true, some txt)

/-! ## Vocabulary of the proofs -/

/-- The local variables at the entry of the scan loop. -/
def scanInit : ScanState :=
  { start_raw := SIZE_MAX, backticks_seen := 0, plain_index := 0, plain := [],
    actions := { items := none, count := 0, capacity := 0 } }

/-- The local variables after the scan loop has read the prefix `p`. -/
def scanOf (p : List Nat) : ScanState := loadFmtString_loop p 0 scanInit

/-- What holds of the local variables once the scan loop has read the prefix `p`. -/
structure ScanInv (p : List Nat) (s : ScanState) : Prop where
  seen : s.backticks_seen = backticks p
  plain : s.plain = p.filter (fun c => decide (c ≠ BACKTICK))
  pidx : s.plain_index = s.plain.length
  count : s.actions.count = backticks p / 2
  len : (s.actions.items.getD []).length = backticks p / 2
  closed : backticks p % 2 = 0 → s.start_raw = SIZE_MAX
  opened : backticks p % 2 = 1 →
    p[s.start_raw]? = some BACKTICK ∧ backticks (p.take s.start_raw) + 1 = backticks p
  acts : ∀ i o c, IsPair p i o c →
    (s.actions.items.getD [])[i]? = some ⟨o - 2 * i, szSub (szSub c (2 * i + 1)) 1⟩

/-- An instance no format string has been loaded into. -/
def unloaded : SelectableText :=
  { fmt_text := none, text := none, count := 0,
    actions := { items := none, count := 0, capacity := 0 } }

/-- Both allocations succeed. -/
def allocOk : Alloc := { malloc_ok := true, strdup_ok := true }

/-- The instance the format string of scenario A loads into. -/
def scenarioA : SelectableText :=
  { fmt_text := some (cstr "pick `one` or `two`"), text := some (cstr "pick one or two"),
    count := 2, actions := { items := some [⟨5, 7⟩, ⟨12, 14⟩], count := 2, capacity := 2 } }

/-- The number of backticks the round trip puts into the gap before plain
position `g`: one for each action that starts at `g` (a backtick immediately
before position `start_pos`) and one for each action that ends at `g - 1` (a
backtick immediately after position `end_pos`). -/
def delimitersAt (acts : List Action) (g : Nat) : Nat :=
  acts.countP (fun a => decide (a.start_pos = g)) + acts.countP (fun a => decide (a.end_pos + 1 = g))

/-- The round trip from plain position `g` on, over the plain characters left. -/
def reinsertFrom (acts : List Action) : List Nat → Nat → List Nat
  | [], g => List.replicate (delimitersAt acts g) BACKTICK
  | ch :: rest, g =>
    List.replicate (delimitersAt acts g) BACKTICK ++ ch :: reinsertFrom acts rest (g + 1)

/-- The round trip of the specification: the plain text with one backtick
inserted immediately before position `start_pos` and one immediately after
position `end_pos` of every action. -/
def reinsertDelimiters (text : List Nat) (acts : List Action) : List Nat :=
  reinsertFrom acts text 0

/-- The instance the format string of two backticks loads into. -/
def emptyPair : SelectableText :=
  { fmt_text := some (cstr "``"), text := some [], count := 1,
    actions := { items := some [⟨0, SIZE_MAX⟩], count := 1, capacity := 1 } }

/-- The value a call returned and the input it left, when it returned. -/
def Outcome.returned : Outcome → Option (Nat × List Nat)
  | Outcome.ret v stdin _ => some (v, stdin)
  | _ => none

/-- The output of one iteration of the loop of `selectableText_promptUser`, one
render pass: the screen is cleared, the focused action is fetched and the text
is rendered; `none` when the fetch reads outside the action array. -/
def render_pass (text : List Nat) (acts : Actions) (action_index : Nat) (stdout : List Out) :
    Option (List Out) :=
  match (acts.items.getD [])[action_index]? with
  | none => none
  | some act => some (render_loop act text 0 (stdout ++ [Out.printf clear_screen]))

/-- The output with the writes of the clear-screen, begin-highlight and
end-highlight sequences removed. -/
def stripControl (out : List Out) : List Out :=
  out.filter (fun e => decide (e ≠ Out.printf clear_screen ∧ e ≠ Out.printf start_reverse ∧
    e ≠ Out.printf end_reverse))

/-- The positions, counted from `i`, of the characters written while reverse
video is on: the flag `lit` is set by a write of the begin-highlight sequence and
cleared by a write of the end-highlight sequence. -/
def highlightScan : List Out → Bool → Nat → List Nat
  | [], _, _ => []
  | Out.printf s :: rest, lit, i =>
    if s = start_reverse then highlightScan rest true i
    else if s = end_reverse then highlightScan rest false i
    else highlightScan rest lit i
  | Out.putchar _ :: rest, lit, i =>
    if lit then i :: highlightScan rest lit (i + 1) else highlightScan rest lit (i + 1)

/-- The positions of the characters an output shows highlighted. -/
def highlightedPositions (out : List Out) : List Nat := highlightScan out false 0

/-- The instance the format string `a`, two backticks, `b` loads into. -/
def innerEmptyPair : SelectableText :=
  { fmt_text := some (cstr "a``b"), text := some (cstr "ab"), count := 1,
    actions := { items := some [⟨1, 0⟩], count := 1, capacity := 1 } }

/-! ## Counting backticks -/

theorem backticks_append (p q : List Nat) : backticks (p ++ q) = backticks p + backticks q := by
  simp [backticks]

theorem backticks_take_mono (l : List Nat) {m n : Nat} (h : m ≤ n) :
    backticks (l.take m) ≤ backticks (l.take n) :=
  (List.take_sublist_take_left l h).count_le BACKTICK

theorem backticks_take_le (l : List Nat) (o : Nat) : backticks (l.take o) ≤ o := by
  have h1 := List.count_le_length BACKTICK (l.take o)
  have h2 : (l.take o).length ≤ o := by simp
  exact le_trans h1 h2

theorem backticks_take_le_all (l : List Nat) (o : Nat) : backticks (l.take o) ≤ backticks l :=
  (List.take_sublist o l).count_le BACKTICK

theorem backticks_take_succ (l : List Nat) (o : Nat) (h : l[o]? = some BACKTICK) :
    backticks (l.take (o + 1)) = backticks (l.take o) + 1 := by
  rw [List.take_succ, h, backticks_append]
  simp [backticks]

theorem backticks_take_lt (l : List Nat) {o c : Nat} (h : l[o]? = some BACKTICK) (hoc : o < c) :
    backticks (l.take o) < backticks (l.take c) := by
  have h1 := backticks_take_succ l o h
  have h2 := backticks_take_mono l (show o + 1 ≤ c from hoc)
  omega

theorem backtick_index_unique (l : List Nat) {o1 o2 : Nat} (h1 : l[o1]? = some BACKTICK)
    (h2 : l[o2]? = some BACKTICK) (h : backticks (l.take o1) = backticks (l.take o2)) :
    o1 = o2 := by
  rcases Nat.lt_trichotomy o1 o2 with hlt | heq | hgt
  · have := backticks_take_lt l h1 hlt; omega
  · exact heq
  · have := backticks_take_lt l h2 hgt; omega

theorem lt_length_of_getElem? {α : Type} {l : List α} {o : Nat} {v : α} (h : l[o]? = some v) :
    o < l.length := by
  by_contra hc
  rw [List.getElem?_eq_none (Nat.le_of_not_lt hc)] at h
  exact Option.noConfusion h

theorem filter_length_add_backticks (l : List Nat) :
    (l.filter (fun c => decide (c ≠ BACKTICK))).length + backticks l = l.length := by
  induction l with
  | nil => simp [backticks]
  | cons c cs ih =>
    by_cases hc : c = BACKTICK
    · simp [backticks, hc] at ih ⊢; omega
    · have hc2 : ¬ (BACKTICK = c) := fun h => hc h.symm
      simp [backticks, hc, List.count_cons, hc2] at ih ⊢; omega

/-! ## The scan loop, one character at a time -/

theorem loadFmtString_loop_append (p q : List Nat) (i : Nat) (s : ScanState) :
    loadFmtString_loop (p ++ q) i s
      = loadFmtString_loop q (i + p.length) (loadFmtString_loop p i s) := by
  induction p generalizing i s with
  | nil => simp [loadFmtString_loop]
  | cons c cs ih =>
    have h : i + 1 + cs.length = i + (cs.length + 1) := by omega
    show loadFmtString_loop (cs ++ q) (i + 1) (loadFmtString_body i c s) = _
    rw [ih, h]
    rfl

theorem scanOf_snoc (p : List Nat) (c : Nat) :
    scanOf (p ++ [c]) = loadFmtString_body p.length c (scanOf p) := by
  simp [scanOf, loadFmtString_loop_append, loadFmtString_loop]

/-! ## `size_t` subtraction without wrap-around -/

theorem szSub_of_le {a b : Nat} (hb : b ≤ a) (ha : a < 2 ^ 64) : szSub a b = a - b := by
  unfold szSub
  omega

theorem szSub_zero_one : szSub 0 1 = SIZE_MAX := by decide

/-! ## Delimiter pairs of a prefix -/

theorem IsPair.lt {l : List Nat} {i o c : Nat} (h : IsPair l i o c) : o < c := by
  obtain ⟨_, _, h3, h4⟩ := h
  by_contra hc
  have := backticks_take_mono l (Nat.le_of_not_lt hc)
  omega

theorem IsPair.close_lt {l : List Nat} {i o c : Nat} (h : IsPair l i o c) : c < l.length :=
  lt_length_of_getElem? h.2.1

theorem IsPair.of_snoc {p : List Nat} {x i o c : Nat} (h : IsPair (p ++ [x]) i o c)
    (hc : c < p.length) : IsPair p i o c := by
  have ho : o < p.length := lt_trans h.lt hc
  obtain ⟨h1, h2, h3, h4⟩ := h
  rw [List.getElem?_append_left ho] at h1
  rw [List.getElem?_append_left hc] at h2
  rw [List.take_append_of_le_length (Nat.le_of_lt ho)] at h3
  rw [List.take_append_of_le_length (Nat.le_of_lt hc)] at h4
  exact ⟨h1, h2, h3, h4⟩

theorem IsPair.close_snoc {p : List Nat} {x i o c : Nat} (h : IsPair (p ++ [x]) i o c)
    (hc : ¬ c < p.length) :
    c = p.length ∧ x = BACKTICK ∧ backticks p = 2 * i + 1 ∧ p[o]? = some BACKTICK ∧
      backticks (p.take o) = 2 * i := by
  have hlen := h.close_lt
  have hceq : c = p.length := by simp at hlen; omega
  have ho : o < p.length := by have := h.lt; omega
  obtain ⟨h1, h2, h3, h4⟩ := h
  subst hceq
  rw [List.getElem?_concat_length] at h2
  rw [List.getElem?_append_left ho] at h1
  rw [List.take_append_of_le_length (Nat.le_of_lt ho)] at h3
  rw [List.take_append_of_le_length (Nat.le_refl _), List.take_length] at h4
  exact ⟨rfl, Option.some.inj h2, h4, h1, h3⟩

/-! ## The invariant of the scan loop -/

theorem actions_append_items (x : Action) (a : Actions) :
    (actions_append x a).items = some (a.items.getD [] ++ [x]) := by
  unfold actions_append
  split <;> simp

theorem actions_append_count (x : Action) (a : Actions) :
    (actions_append x a).count = a.count + 1 := by
  unfold actions_append
  split <;> simp

theorem scanInv_nil : ScanInv [] scanInit where
  seen := rfl
  plain := rfl
  pidx := rfl
  count := rfl
  len := rfl
  closed := fun _ => rfl
  opened := fun h => by simp [backticks] at h
  acts := fun i o c h => by
    have := h.close_lt
    simp at this

theorem scanInv_other {p : List Nat} {s : ScanState} {x : Nat} (hx : x ≠ BACKTICK)
    (ih : ScanInv p s) : ScanInv (p ++ [x]) (loadFmtString_body p.length x s) := by
  have hb : backticks (p ++ [x]) = backticks p := by
    have hx2 : ¬ (x = BACKTICK) := hx
    simp [backticks, List.count_singleton, hx2]
  have hbody : loadFmtString_body p.length x s
      = { s with plain := s.plain ++ [x], plain_index := s.plain_index + 1 } := by
    simp [loadFmtString_body, hx]
  rw [hbody]
  refine ⟨?_, ?_, ?_, ?_, ?_, ?_, ?_, ?_⟩
  · simpa [hb] using ih.seen
  · simp [ih.plain, hx]
  · simp [ih.pidx]
  · simpa [hb] using ih.count
  · simpa [hb] using ih.len
  · intro h; rw [hb] at h; exact ih.closed h
  · intro h
    rw [hb] at h ⊢
    obtain ⟨h1, h2⟩ := ih.opened h
    have hlt := lt_length_of_getElem? h1
    refine ⟨?_, ?_⟩
    · show (p ++ [x])[s.start_raw]? = _
      rw [List.getElem?_append_left hlt]; exact h1
    · show backticks (List.take s.start_raw (p ++ [x])) + 1 = _
      rw [List.take_append_of_le_length (Nat.le_of_lt hlt)]; exact h2
  · intro i o c h
    by_cases hc : c < p.length
    · exact ih.acts i o c (h.of_snoc hc)
    · exact absurd (h.close_snoc hc).2.1 hx

theorem backticks_snoc_backtick (p : List Nat) : backticks (p ++ [BACKTICK]) = backticks p + 1 := by
  simp [backticks]

theorem scanInv_open {p : List Nat} {s : ScanState} (hev : backticks p % 2 = 0)
    (ih : ScanInv p s) : ScanInv (p ++ [BACKTICK]) (loadFmtString_body p.length BACKTICK s) := by
  have hb := backticks_snoc_backtick p
  have hbody : loadFmtString_body p.length BACKTICK s
      = { s with backticks_seen := s.backticks_seen + 1, start_raw := p.length } := by
    simp [loadFmtString_body, ih.closed hev]
  rw [hbody]
  refine ⟨?_, ?_, ?_, ?_, ?_, ?_, ?_, ?_⟩
  · simp [hb, ih.seen]
  · simp [ih.plain]
  · simp [ih.pidx]
  · show s.actions.count = _
    rw [ih.count, hb]; omega
  · show (s.actions.items.getD []).length = _
    rw [ih.len, hb]; omega
  · intro h; rw [hb] at h; omega
  · intro _
    refine ⟨?_, ?_⟩
    · show (p ++ [BACKTICK])[p.length]? = _
      exact List.getElem?_concat_length p BACKTICK
    · show backticks (List.take p.length (p ++ [BACKTICK])) + 1 = _
      rw [List.take_append_of_le_length (Nat.le_refl _), List.take_length, hb]
  · intro i o c h
    by_cases hc : c < p.length
    · exact ih.acts i o c (h.of_snoc hc)
    · have := (h.close_snoc hc).2.2.1
      omega

theorem scanInv_close {p : List Nat} {s : ScanState} (hlen : p.length + 1 < 2 ^ 64)
    (hodd : backticks p % 2 = 1) (ih : ScanInv p s) :
    ScanInv (p ++ [BACKTICK]) (loadFmtString_body p.length BACKTICK s) := by
  have hb := backticks_snoc_backtick p
  obtain ⟨hop1, hop2⟩ := ih.opened hodd
  have hsr : s.start_raw < p.length := lt_length_of_getElem? hop1
  have hne : s.start_raw ≠ SIZE_MAX := by
    have : SIZE_MAX = 2 ^ 64 - 1 := rfl
    omega
  have hbody : loadFmtString_body p.length BACKTICK s
      = { s with
          backticks_seen := s.backticks_seen + 1
          actions := actions_append
            ⟨szSub s.start_raw (szSub (s.backticks_seen + 1) 2),
             szSub (szSub p.length (szSub (s.backticks_seen + 1) 1)) 1⟩ s.actions
          start_raw := SIZE_MAX } := by
    simp [loadFmtString_body, hne]
  rw [hbody]
  have hble : backticks p ≤ p.length := List.count_le_length _ _
  have hsrle := backticks_take_le p s.start_raw
  refine ⟨?_, ?_, ?_, ?_, ?_, ?_, ?_, ?_⟩
  · simp [hb, ih.seen]
  · simp [ih.plain]
  · simp [ih.pidx]
  · show (actions_append _ s.actions).count = _
    rw [actions_append_count, ih.count, hb]; omega
  · show ((actions_append _ s.actions).items.getD []).length = _
    rw [actions_append_items]
    simp [ih.len, hb]; omega
  · intro _; rfl
  · intro h; rw [hb] at h; omega
  · intro i o c h
    show ((actions_append _ s.actions).items.getD [])[i]? = _
    rw [actions_append_items]
    simp only [Option.getD_some]
    by_cases hc : c < p.length
    · have hold := ih.acts i o c (h.of_snoc hc)
      have hi : i < (s.actions.items.getD []).length := lt_length_of_getElem? hold
      rw [List.getElem?_append_left hi]; exact hold
    · obtain ⟨hceq, _, hbi, hpo, hto⟩ := h.close_snoc hc
      have hoeq : o = s.start_raw := backtick_index_unique p hpo hop1 (by omega)
      have hi : i = (s.actions.items.getD []).length := by rw [ih.len]; omega
      rw [hi, List.getElem?_concat_length, ← hi, ih.seen, hbi, hceq, ← hoeq]
      have e1 : szSub (2 * i + 1 + 1) 2 = 2 * i := by rw [szSub_of_le (by omega) (by omega)]; omega
      have e2 : szSub (2 * i + 1 + 1) 1 = 2 * i + 1 := by
        rw [szSub_of_le (by omega) (by omega)]; omega
      have hoi : 2 * i ≤ o := by rw [← hto]; exact backticks_take_le p o
      have ho : o < p.length := lt_length_of_getElem? hpo
      rw [e1, e2, szSub_of_le hoi (by omega)]

theorem scanOf_inv (p : List Nat) (h : p.length < 2 ^ 64) : ScanInv p (scanOf p) := by
  induction p using List.reverseRecOn with
  | nil => exact scanInv_nil
  | append_singleton p x ih =>
    rw [scanOf_snoc]
    have hlen : p.length + 1 < 2 ^ 64 := by simpa using h
    have ih := ih (by omega)
    by_cases hx : x = BACKTICK
    · subst hx
      rcases Nat.mod_two_eq_zero_or_one (backticks p) with h0 | h1
      · exact scanInv_open h0 ih
      · exact scanInv_close hlen h1 ih
    · exact scanInv_other hx ih

/-- The plain buffer holds the non-backtick characters read so far, whatever
the length of the input. -/
theorem scanOf_plain (p : List Nat) :
    (scanOf p).plain = p.filter (fun c => decide (c ≠ BACKTICK)) ∧
      (scanOf p).plain_index = (scanOf p).plain.length := by
  induction p using List.reverseRecOn with
  | nil => exact ⟨rfl, rfl⟩
  | append_singleton p x ih =>
    rw [scanOf_snoc]
    obtain ⟨h1, h2⟩ := ih
    unfold loadFmtString_body
    by_cases hx : x = BACKTICK
    · by_cases hs : (scanOf p).start_raw = SIZE_MAX <;> simp [hx, hs, h1, h2]
    · simp [hx, h1, h2]

theorem scanOf_start_raw_iff (p : List Nat) (h : p.length < 2 ^ 64) :
    (scanOf p).start_raw = SIZE_MAX ↔ backticks p % 2 = 0 := by
  have inv := scanOf_inv p h
  constructor
  · intro hs
    rcases Nat.mod_two_eq_zero_or_one (backticks p) with h0 | h1
    · exact h0
    · have hlt := lt_length_of_getElem? (inv.opened h1).1
      have : SIZE_MAX = 2 ^ 64 - 1 := rfl
      omega
  · exact inv.closed

/-! ## What a call of the parser returns -/

theorem loadFmtString_eq_true_iff (al : Alloc) (fmt : List Nat) (t0 txt : SelectableText) :
    selectableText_loadFmtString al (some fmt) (some t0) = (true, some txt) ↔
      al.malloc_ok = true ∧ al.strdup_ok = true ∧ (scanOf fmt).start_raw = SIZE_MAX ∧
      txt = { fmt_text := some fmt
              text := some ((scanOf fmt).plain.take (scanOf fmt).plain_index)
              count := (scanOf fmt).backticks_seen / 2
              actions := (scanOf fmt).actions } := by
  unfold selectableText_loadFmtString
  simp only [scanOf, scanInit]
  by_cases hm : al.malloc_ok = true <;> by_cases hs : al.strdup_ok = true <;>
    by_cases hr : (loadFmtString_loop fmt 0
        { start_raw := SIZE_MAX, backticks_seen := 0, plain_index := 0, plain := [],
          actions := { items := none, count := 0, capacity := 0 } }).start_raw = SIZE_MAX <;>
    simp [hm, hs, hr, eq_comm]

theorem loadFmtString_eq_false_of_open (al : Alloc) (fmt : List Nat) (t0 : SelectableText)
    (h : (scanOf fmt).start_raw ≠ SIZE_MAX) :
    selectableText_loadFmtString al (some fmt) (some t0)
      = (false, some { t0 with actions := { items := none, count := 0, capacity := 0 } }) := by
  unfold selectableText_loadFmtString
  simp only [scanOf, scanInit] at h
  by_cases hm : al.malloc_ok = true <;> simp [hm, h, actions_free]

theorem Loaded.iff {fmt : List Nat} {txt : SelectableText} :
    Loaded fmt txt ↔ (scanOf fmt).start_raw = SIZE_MAX ∧
      txt = { fmt_text := some fmt
              text := some ((scanOf fmt).plain.take (scanOf fmt).plain_index)
              count := (scanOf fmt).backticks_seen / 2
              actions := (scanOf fmt).actions } := by
  constructor
  · rintro ⟨al, t0, h⟩
    exact ((loadFmtString_eq_true_iff al fmt t0 txt).1 h).2.2
  · rintro ⟨h1, h2⟩
    exact ⟨⟨true, true⟩, txt, (loadFmtString_eq_true_iff _ fmt txt txt).2 ⟨rfl, rfl, h1, h2⟩⟩

theorem Loaded.text_eq {fmt : List Nat} {txt : SelectableText} (h : Loaded fmt txt) :
    txt.text = some (fmt.filter (fun c => decide (c ≠ BACKTICK))) := by
  obtain ⟨_, rfl⟩ := Loaded.iff.1 h
  obtain ⟨h1, h2⟩ := scanOf_plain fmt
  simp [h2, h1]

theorem Loaded.action_of_pair {fmt : List Nat} {txt : SelectableText} (h : Loaded fmt txt)
    (hlen : fmt.length < 2 ^ 64) {i o c : Nat} (hp : IsPair fmt i o c) :
    (txt.actions.items.getD [])[i]? = some ⟨o - 2 * i, szSub (szSub c (2 * i + 1)) 1⟩ := by
  obtain ⟨_, rfl⟩ := Loaded.iff.1 h
  exact (scanOf_inv fmt hlen).acts i o c hp

/-- The characters strictly between the delimiters of a pair are copied to the
plain text from offset `o - 2 * i` on. -/
theorem filter_between_pair {fmt : List Nat} {i o c : Nat} (hp : IsPair fmt i o c) :
    ((fmt.filter (fun c => decide (c ≠ BACKTICK))).drop (o - 2 * i)).take (c - (o + 1))
      = (fmt.drop (o + 1)).take (c - (o + 1)) := by
  have hoc := hp.lt
  have hcl := hp.close_lt
  obtain ⟨h1, _, h3, h4⟩ := hp
  have hA := backticks_take_succ fmt o h1
  have hsplit : fmt.take c = fmt.take (o + 1) ++ (fmt.drop (o + 1)).take (c - (o + 1)) := by
    have : c = (o + 1) + (c - (o + 1)) := by omega
    conv_lhs => rw [this]
    exact List.take_add fmt (o + 1) (c - (o + 1))
  have hM : backticks ((fmt.drop (o + 1)).take (c - (o + 1))) = 0 := by
    have := congrArg backticks hsplit
    rw [backticks_append] at this
    omega
  have hMf : ((fmt.drop (o + 1)).take (c - (o + 1))).filter (fun c => decide (c ≠ BACKTICK))
      = (fmt.drop (o + 1)).take (c - (o + 1)) := by
    rw [List.filter_eq_self]
    intro a ha
    have hnot : BACKTICK ∉ (fmt.drop (o + 1)).take (c - (o + 1)) := List.count_eq_zero.1 hM
    have : a ≠ BACKTICK := fun e => hnot (e ▸ ha)
    simpa using this
  have hAlen : ((fmt.take (o + 1)).filter (fun c => decide (c ≠ BACKTICK))).length = o - 2 * i := by
    have h5 := filter_length_add_backticks (fmt.take (o + 1))
    have h6 : (fmt.take (o + 1)).length = o + 1 := List.length_take_of_le (by omega)
    omega
  have hMlen : ((fmt.drop (o + 1)).take (c - (o + 1))).length = c - (o + 1) := by
    apply List.length_take_of_le
    simp; omega
  have hfmt : fmt = fmt.take (o + 1) ++ ((fmt.drop (o + 1)).take (c - (o + 1)) ++ fmt.drop c) := by
    rw [← List.append_assoc, ← hsplit, List.take_append_drop]
  conv_lhs => rw [hfmt]
  rw [List.filter_append, List.filter_append, hMf, List.drop_left' hAlen, List.take_left' hMlen]

/-! ## The parser: claims C1 to C7 -/

/-- C1, evaluated where it fails. Loading the format string of two backticks
succeeds with the empty plain text and the single action `(0, SIZE_MAX)`, whose
`end_pos` is not below `strlen(text) = 0`; loading `a`, two backticks, `b`
succeeds with the single action `(1, 0)`, whose `start_pos` exceeds its
`end_pos`. In both the bounds `start_pos ≤ end_pos < strlen(text)` fail. -/
theorem loadFmtString_empty_pair_breaks_bounds :
    (∀ t0, selectableText_loadFmtString allocOk (some (cstr "``")) (some t0)
      = (true, some { fmt_text := some (cstr "``"), text := some [], count := 1,
                      actions := { items := some [⟨0, SIZE_MAX⟩], count := 1, capacity := 1 } })) ∧
    ¬ ((0 : Nat) ≤ SIZE_MAX ∧ SIZE_MAX < ([] : List Nat).length) ∧
    (∀ t0, selectableText_loadFmtString allocOk (some (cstr "a``b")) (some t0)
      = (true, some { fmt_text := some (cstr "a``b"), text := some (cstr "ab"), count := 1,
                      actions := { items := some [⟨1, 0⟩], count := 1, capacity := 1 } })) ∧
    ¬ ((1 : Nat) ≤ 0 ∧ 0 < (cstr "ab").length) := by
  refine ⟨fun t0 => ?_, by decide, fun t0 => ?_, by decide⟩
  · exact (loadFmtString_eq_true_iff allocOk _ t0 _).2 ⟨rfl, rfl, by decide, by decide⟩
  · exact (loadFmtString_eq_true_iff allocOk _ t0 _).2 ⟨rfl, rfl, by decide, by decide⟩

/-- C2, evaluated where it fails. In the format string of two backticks the
pair 0 opens at raw index 0 and closes at raw index 1. The load succeeds and
records the action `(0, SIZE_MAX)` for it: `start_pos` is `o - 2 * i = 0`, but
`end_pos` is `2^64 - 1` and not `c - (2 * i + 1) - 1 = -1`, the subtraction
having wrapped in `size_t`. -/
theorem loadFmtString_leading_empty_pair_end_pos :
    selectableText_loadFmtString allocOk (some (cstr "``")) (some unloaded)
      = (true, some emptyPair) ∧
    IsPair (cstr "``") 0 0 1 ∧
    (emptyPair.actions.items.getD [])[0]? = some ⟨0, SIZE_MAX⟩ ∧
    ((⟨0, SIZE_MAX⟩ : Action).start_pos : Int) = (0 : Int) - 2 * 0 ∧
    ((⟨0, SIZE_MAX⟩ : Action).end_pos : Int) ≠ (1 : Int) - (2 * 0 + 1) - 1 ∧
    ((⟨0, SIZE_MAX⟩ : Action).end_pos : Int) = 2 ^ 64 - 1 := by
  refine ⟨(loadFmtString_eq_true_iff allocOk _ unloaded _).2 ⟨rfl, rfl, by decide, by decide⟩,
    ?_, rfl, by decide, by decide, by decide⟩
  unfold IsPair
  decide

/-- The offsets recorded for a delimiter pair. In a successfully loaded format
string shorter than `2^64`, let the `i`-th delimiter pair open at raw index `o`
and close at raw index `c`. Then action `i` exists, its `start_pos` is
`o - 2 * i`, and its `end_pos` is `c - (2 * i + 1) - 1` computed in `size_t`,
that is modulo `2^64`. When `c > o + 1` that value is the integer
`c - (2 * i + 1) - 1` itself, the offsets satisfy
`start_pos ≤ end_pos < strlen(text)`, and the plain-text characters at
positions `start_pos .. end_pos` are the raw characters `fmt[o+1 .. c-1]`. -/
theorem loadFmtString_pair_offsets (fmt : List Nat) (txt : SelectableText)
    (hload : Loaded fmt txt) (hlen : fmt.length < 2 ^ 64) (i o c : Nat)
    (hp : IsPair fmt i o c) :
    ∃ a text, (txt.actions.items.getD [])[i]? = some a ∧ txt.text = some text ∧
      (a.start_pos : Int) = (o : Int) - 2 * i ∧
      (a.end_pos : Int) = ((c : Int) - (2 * i + 1) - 1) % 2 ^ 64 ∧
      (o + 1 < c →
        (a.end_pos : Int) = (c : Int) - (2 * i + 1) - 1 ∧
        a.start_pos ≤ a.end_pos ∧ a.end_pos < text.length ∧
        (text.drop a.start_pos).take (a.end_pos + 1 - a.start_pos)
          = (fmt.drop (o + 1)).take (c - (o + 1))) := by
  have hoc := hp.lt
  have hcl := hp.close_lt
  have hoi : 2 * i ≤ o := by rw [← hp.2.2.1]; exact backticks_take_le fmt o
  have hci : 2 * i + 1 ≤ c := by rw [← hp.2.2.2]; exact backticks_take_le fmt c
  have hflen := filter_length_add_backticks fmt
  have hbc : 2 * i + 1 ≤ backticks fmt := by rw [← hp.2.2.2]; exact backticks_take_le_all fmt c
  have hcb : backticks fmt - (2 * i + 1) ≤ fmt.length - c := by
    have h1 : backticks fmt = backticks (fmt.take c) + backticks (fmt.drop c) := by
      rw [← backticks_append, List.take_append_drop]
    have h2 : backticks (fmt.drop c) ≤ (fmt.drop c).length := List.count_le_length _ _
    rw [List.length_drop] at h2
    rw [hp.2.2.2] at h1
    omega
  refine ⟨_, _, hload.action_of_pair hlen hp, hload.text_eq, ?_, ?_, ?_⟩
  · show ((o - 2 * i : Nat) : Int) = _
    omega
  · show ((szSub (szSub c (2 * i + 1)) 1 : Nat) : Int) = _
    rw [szSub_of_le hci (by omega)]
    unfold szSub
    omega
  · intro hlt
    have hend : szSub (szSub c (2 * i + 1)) 1 = c - (2 * i + 1) - 1 := by
      rw [szSub_of_le hci (by omega), szSub_of_le (by omega) (by omega)]
    show ((szSub (szSub c (2 * i + 1)) 1 : Nat) : Int) = _ ∧ o - 2 * i ≤ szSub (szSub c (2 * i + 1)) 1 ∧
      szSub (szSub c (2 * i + 1)) 1 < _ ∧
      List.take (szSub (szSub c (2 * i + 1)) 1 + 1 - (o - 2 * i)) _ = _
    rw [hend]
    refine ⟨by omega, by omega, by omega, ?_⟩
    have : c - (2 * i + 1) - 1 + 1 - (o - 2 * i) = c - (o + 1) := by omega
    rw [this]
    exact filter_between_pair hp

theorem scenarioA_loaded (t0 : SelectableText) :
    selectableText_loadFmtString allocOk (some (cstr "pick `one` or `two`")) (some t0)
      = (true, some scenarioA) :=
  (loadFmtString_eq_true_iff allocOk _ t0 _).2 ⟨rfl, rfl, by decide, by decide⟩

/-- The offsets recorded for the second pair of scenario A, which opens at raw
index 14 and closes at raw index 18. -/
theorem loadFmtString_pair_offsets_witness :
    Loaded (cstr "pick `one` or `two`") scenarioA ∧
    (cstr "pick `one` or `two`").length < 2 ^ 64 ∧
    IsPair (cstr "pick `one` or `two`") 1 14 18 ∧
    ∃ a, (scenarioA.actions.items.getD [])[1]? = some a ∧ (a.start_pos : Int) = 12 :=
  have h1 : Loaded (cstr "pick `one` or `two`") scenarioA :=
    ⟨allocOk, unloaded, scenarioA_loaded unloaded⟩
  have h2 : (cstr "pick `one` or `two`").length < 2 ^ 64 := by decide
  have h3 : IsPair (cstr "pick `one` or `two`") 1 14 18 := by
    unfold IsPair; decide
  match loadFmtString_pair_offsets _ _ h1 h2 1 14 18 h3 with
  | ⟨a, _, ha, _, hs, _⟩ => ⟨h1, h2, h3, a, ha, by simpa using hs⟩

/-- The recorded `end_pos` is the integer `c - (2 * i + 1) - 1` for every pair
but one whose closing backtick has only backticks before it (`c = 2 * i + 1`). -/
theorem loadFmtString_end_pos_no_wrap (fmt : List Nat) (txt : SelectableText)
    (hload : Loaded fmt txt) (hlen : fmt.length < 2 ^ 64) (i o c : Nat)
    (hp : IsPair fmt i o c) (hc : 2 * i + 1 < c) :
    ∃ a, (txt.actions.items.getD [])[i]? = some a ∧
      (a.end_pos : Int) = (c : Int) - (2 * i + 1) - 1 := by
  have hcl := hp.close_lt
  refine ⟨_, hload.action_of_pair hlen hp, ?_⟩
  show ((szSub (szSub c (2 * i + 1)) 1 : Nat) : Int) = _
  have e1 : szSub c (2 * i + 1) = c - (2 * i + 1) := szSub_of_le (by omega) (by omega)
  rw [e1, szSub_of_le (by omega) (by omega)]
  omega

/-- What a load leaves behind when `strdup` fails after a scan without an
unmatched backtick: `fmt_text` is `NULL`, `text` and `count` are as before the
call, and the action list is reset. -/
theorem loadFmtString_strdup_failure (fmt : List Nat) (t0 : SelectableText)
    (hlen : fmt.length < 2 ^ 64) (hev : backticks fmt % 2 = 0) :
    selectableText_loadFmtString { malloc_ok := true, strdup_ok := false } (some fmt) (some t0)
      = (false, some { fmt_text := none, text := t0.text, count := t0.count,
                       actions := { items := none, count := 0, capacity := 0 } }) := by
  have hs : (scanOf fmt).start_raw = SIZE_MAX := (scanOf_start_raw_iff fmt hlen).2 hev
  unfold selectableText_loadFmtString
  simp only [scanOf, scanInit] at hs
  simp [hs, actions_free]

/-- C3. For every format string shorter than `2^64` with an even number of
backticks, and every instance, `selectableText_loadFmtString` returns true when
its allocations succeed, and `txt.count`, `txt.actions.count` and the number of
stored actions all equal the number of backticks divided by 2. -/
theorem loadFmtString_even_succeeds (fmt : List Nat) (t0 : SelectableText)
    (hlen : fmt.length < 2 ^ 64) (hev : backticks fmt % 2 = 0) :
    ∃ txt, selectableText_loadFmtString allocOk (some fmt) (some t0) = (true, some txt) ∧
      txt.count = backticks fmt / 2 ∧ txt.actions.count = backticks fmt / 2 ∧
      (txt.actions.items.getD []).length = backticks fmt / 2 := by
  have inv := scanOf_inv fmt hlen
  refine ⟨_, (loadFmtString_eq_true_iff allocOk fmt t0 _).2
    ⟨rfl, rfl, inv.closed hev, rfl⟩, ?_, inv.count, inv.len⟩
  show (scanOf fmt).backticks_seen / 2 = _
  rw [inv.seen]

/-- C3 at the format string of scenario A, with four backticks. -/
theorem loadFmtString_even_succeeds_witness :
    (cstr "pick `one` or `two`").length < 2 ^ 64 ∧
    backticks (cstr "pick `one` or `two`") % 2 = 0 ∧
    ∃ txt, selectableText_loadFmtString allocOk (some (cstr "pick `one` or `two`"))
        (some unloaded) = (true, some txt) ∧
      txt.count = backticks (cstr "pick `one` or `two`") / 2 ∧
      txt.actions.count = backticks (cstr "pick `one` or `two`") / 2 ∧
      (txt.actions.items.getD []).length = backticks (cstr "pick `one` or `two`") / 2 :=
  ⟨by decide, by decide,
    loadFmtString_even_succeeds (cstr "pick `one` or `two`") unloaded (by decide) (by decide)⟩

/-- C4. For every format string shorter than `2^64` with an odd number of
backticks, whatever the allocations do and whatever the instance held,
`selectableText_loadFmtString` returns false and leaves the action list with
`items = NULL`, `count = 0` and `capacity = 0`; the string "bad `unmatched" has
an odd number of backticks and is such a failure. -/
theorem loadFmtString_odd_fails :
    (∀ (al : Alloc) (fmt : List Nat) (t0 : SelectableText), fmt.length < 2 ^ 64 →
      backticks fmt % 2 = 1 →
      ∃ txt, selectableText_loadFmtString al (some fmt) (some t0) = (false, some txt) ∧
        txt.actions = { items := none, count := 0, capacity := 0 }) ∧
    backticks (cstr "bad `unmatched") % 2 = 1 ∧
    (∀ (al : Alloc) (t0 : SelectableText),
      ∃ txt, selectableText_loadFmtString al (some (cstr "bad `unmatched")) (some t0)
          = (false, some txt) ∧
        txt.actions = { items := none, count := 0, capacity := 0 }) := by
  have key : ∀ (al : Alloc) (fmt : List Nat) (t0 : SelectableText), fmt.length < 2 ^ 64 →
      backticks fmt % 2 = 1 →
      ∃ txt, selectableText_loadFmtString al (some fmt) (some t0) = (false, some txt) ∧
        txt.actions = { items := none, count := 0, capacity := 0 } := by
    intro al fmt t0 hlen hodd
    have hne : (scanOf fmt).start_raw ≠ SIZE_MAX := by
      intro h
      have := (scanOf_start_raw_iff fmt hlen).1 h
      omega
    exact ⟨_, loadFmtString_eq_false_of_open al fmt t0 hne, rfl⟩
  exact ⟨key, by decide, fun al t0 => key al _ t0 (by decide) (by decide)⟩

/-- C4 at the format string "bad `unmatched", after a failed `malloc` or not. -/
theorem loadFmtString_odd_fails_witness :
    (cstr "bad `unmatched").length < 2 ^ 64 ∧ backticks (cstr "bad `unmatched") % 2 = 1 ∧
    ∃ txt, selectableText_loadFmtString allocOk (some (cstr "bad `unmatched")) (some scenarioA)
        = (false, some txt) ∧
      txt.actions = { items := none, count := 0, capacity := 0 } :=
  ⟨by decide, by decide,
    loadFmtString_odd_fails.1 allocOk (cstr "bad `unmatched") scenarioA (by decide) (by decide)⟩

/-- C5. After a successful load of `fmt`, `txt.text` is `fmt` with every
backtick removed and the other bytes kept in order, its length is the length of
`fmt` minus the number of backticks, and `txt.fmt_text` is `fmt`. -/
theorem loadFmtString_plain_text (fmt : List Nat) (txt : SelectableText)
    (hload : Loaded fmt txt) :
    txt.text = some (fmt.filter (fun c => decide (c ≠ BACKTICK))) ∧
    (∃ text, txt.text = some text ∧ text.length = fmt.length - backticks fmt ∧
      backticks fmt ≤ fmt.length) ∧
    txt.fmt_text = some fmt := by
  refine ⟨hload.text_eq, ⟨_, hload.text_eq, ?_, List.count_le_length _ _⟩, ?_⟩
  · have := filter_length_add_backticks fmt
    omega
  · obtain ⟨_, rfl⟩ := Loaded.iff.1 hload
    rfl

/-- C5 at the format string of scenario A. -/
theorem loadFmtString_plain_text_witness :
    Loaded (cstr "pick `one` or `two`") scenarioA ∧
    scenarioA.text = some ((cstr "pick `one` or `two`").filter (fun c => decide (c ≠ BACKTICK))) ∧
    (∃ text, scenarioA.text = some text ∧
      text.length = (cstr "pick `one` or `two`").length - backticks (cstr "pick `one` or `two`") ∧
      backticks (cstr "pick `one` or `two`") ≤ (cstr "pick `one` or `two`").length) ∧
    scenarioA.fmt_text = some (cstr "pick `one` or `two`") :=
  ⟨⟨allocOk, unloaded, scenarioA_loaded unloaded⟩,
    loadFmtString_plain_text _ _ ⟨allocOk, unloaded, scenarioA_loaded unloaded⟩⟩

/-- C7 as stated fails: no successful load of the format string of scenario A
records the actions `(5, 7)` and `(11, 13)`. -/
theorem scenarioA_actions_not_as_stated :
    ¬ ∃ (al : Alloc) (t0 txt : SelectableText),
      selectableText_loadFmtString al (some (cstr "pick `one` or `two`")) (some t0)
        = (true, some txt) ∧
      txt.actions.items = some [⟨5, 7⟩, ⟨11, 13⟩] := by
  rintro ⟨al, t0, txt, h, hi⟩
  obtain ⟨_, rfl⟩ := Loaded.iff.1 ⟨al, t0, h⟩
  revert hi
  decide

/-- C7, amended. Loading the format string of scenario A succeeds with plain
text "pick one or two" and exactly two actions, `(5, 7)` and `(12, 14)`; these
are the offsets of "one" and "two" in the plain text. -/
theorem scenarioA_actions :
    (∀ t0, selectableText_loadFmtString allocOk (some (cstr "pick `one` or `two`")) (some t0)
      = (true, some { fmt_text := some (cstr "pick `one` or `two`")
                      text := some (cstr "pick one or two")
                      count := 2
                      actions := { items := some [⟨5, 7⟩, ⟨12, 14⟩], count := 2,
                                   capacity := 2 } })) ∧
    ((cstr "pick one or two").drop 5).take 3 = cstr "one" ∧
    ((cstr "pick one or two").drop 12).take 3 = cstr "two" :=
  ⟨fun t0 => (loadFmtString_eq_true_iff allocOk _ t0 _).2 ⟨rfl, rfl, by decide, by decide⟩,
    by decide, by decide⟩

/-! ## The selection loop: navigation -/

theorem handle_input_lt (c N idx : Nat) (hN : 1 ≤ N) (h64 : N < 2 ^ 64) (h : idx < N) :
    handle_input c N idx < N := by
  unfold handle_input
  rw [szSub_of_le hN h64]
  split_ifs <;> omega

theorem handle_input_enter (N idx : Nat) : handle_input KEY_ENTER N idx = idx := by
  have h1 : ¬ (KEY_ENTER = KEY_UP ∨ KEY_ENTER = KEY_LEFT) := by decide
  have h2 : ¬ (KEY_ENTER = KEY_DOWN ∨ KEY_ENTER = KEY_RIGHT) := by decide
  simp [handle_input, h1, h2]

theorem handle_input_down (c N k : Nat) (hc : c = KEY_DOWN ∨ c = KEY_RIGHT) (hN : 1 ≤ N)
    (h64 : N < 2 ^ 64) (hk : k < N) : handle_input c N k = (k + 1) % N := by
  have h1 : ¬ (c = KEY_UP ∨ c = KEY_LEFT) := by
    rcases hc with rfl | rfl <;> decide
  unfold handle_input
  rw [szSub_of_le hN h64, if_neg h1, if_pos hc]
  by_cases hlt : k < N - 1
  · rw [if_pos hlt, Nat.mod_eq_of_lt (by omega)]
  · have : k + 1 = N := by omega
    rw [if_neg hlt, this, Nat.mod_self]

theorem handle_input_up (c N k : Nat) (hc : c = KEY_UP ∨ c = KEY_LEFT) (hN : 1 ≤ N)
    (h64 : N < 2 ^ 64) : handle_input c N k = if k = 0 then N - 1 else k - 1 := by
  unfold handle_input
  rw [szSub_of_le hN h64, if_pos hc]
  by_cases hk : k = 0
  · simp [hk]
  · have : k > 0 := Nat.pos_of_ne_zero hk
    simp [hk, this]

theorem handle_input_down_iterate (c N k : Nat) (hc : c = KEY_DOWN ∨ c = KEY_RIGHT) (hN : 1 ≤ N)
    (h64 : N < 2 ^ 64) (hk : k < N) (j : Nat) :
    (handle_input c N)^[j] k = (k + j) % N := by
  induction j with
  | zero => simp [Nat.mod_eq_of_lt hk]
  | succ j ih =>
    rw [Function.iterate_succ_apply', ih,
      handle_input_down c N _ hc hN h64 (Nat.mod_lt _ (by omega))]
    rw [Nat.add_mod, Nat.mod_mod, ← Nat.add_mod]
    rfl

/-- C9. With `N ≥ 1` actions (`N` a `size_t`) and a focused index `k < N`:
applying the Down step `N` times returns to `k`, and so does the Right step;
one Up step, or one Left step, from index 0 yields `N - 1`, and from any
`k > 0` it yields `k - 1`. -/
theorem navigation_wraps (N k : Nat) (hN : 1 ≤ N) (h64 : N < 2 ^ 64) (hk : k < N) :
    (handle_input KEY_DOWN N)^[N] k = k ∧ (handle_input KEY_RIGHT N)^[N] k = k ∧
    handle_input KEY_UP N 0 = N - 1 ∧ handle_input KEY_LEFT N 0 = N - 1 ∧
    (0 < k → handle_input KEY_UP N k = k - 1 ∧ handle_input KEY_LEFT N k = k - 1) := by
  have hmod : (k + N) % N = k := by
    rw [Nat.add_mod_right, Nat.mod_eq_of_lt hk]
  refine ⟨?_, ?_, ?_, ?_, ?_⟩
  · rw [handle_input_down_iterate _ N k (Or.inl rfl) hN h64 hk, hmod]
  · rw [handle_input_down_iterate _ N k (Or.inr rfl) hN h64 hk, hmod]
  · rw [handle_input_up _ N 0 (Or.inl rfl) hN h64]; simp
  · rw [handle_input_up _ N 0 (Or.inr rfl) hN h64]; simp
  · intro hpos
    have hne : k ≠ 0 := by omega
    rw [handle_input_up _ N k (Or.inl rfl) hN h64, handle_input_up _ N k (Or.inr rfl) hN h64]
    simp [hne]

/-- C9 with three actions, from the focused index 1. -/
theorem navigation_wraps_witness :
    1 ≤ 3 ∧ 3 < 2 ^ 64 ∧ 1 < 3 ∧
    ((handle_input KEY_DOWN 3)^[3] 1 = 1 ∧ (handle_input KEY_RIGHT 3)^[3] 1 = 1 ∧
    handle_input KEY_UP 3 0 = 3 - 1 ∧ handle_input KEY_LEFT 3 0 = 3 - 1 ∧
    (0 < 1 → handle_input KEY_UP 3 1 = 1 - 1 ∧ handle_input KEY_LEFT 3 1 = 1 - 1)) :=
  ⟨by decide, by decide, by decide, navigation_wraps 3 1 (by decide) (by decide) (by decide)⟩

/-! ## The selection loop: running it -/

theorem read_keys_succ (n : Nat) (stdin : List Nat) :
    read_keys (n + 1) stdin
      = ((read_action stdin).1 :: (read_keys n (read_action stdin).2).1,
         (read_keys n (read_action stdin).2).2) := rfl

theorem promptUser_loop_succ (text : List Nat) (acts : Actions) (fuel idx : Nat)
    (stdin : List Nat) (stdout : List Out) (act : Action)
    (h : (acts.items.getD [])[idx]? = some act) :
    promptUser_loop text acts (fuel + 1) idx stdin stdout
      = if (read_action stdin).1 ≠ KEY_ENTER then
          promptUser_loop text acts fuel (handle_input (read_action stdin).1 acts.count idx)
            (read_action stdin).2 (render_loop act text 0 (stdout ++ [Out.printf clear_screen]))
        else
          Outcome.ret (handle_input (read_action stdin).1 acts.count idx) (read_action stdin).2
            (render_loop act text 0 (stdout ++ [Out.printf clear_screen])
              ++ [Out.printf end_reverse]) := by
  simp only [promptUser_loop, h]

/-- The loop returns at the first Enter, with the index the keys before it lead to. -/
theorem promptUser_loop_run (text : List Nat) (acts : Actions)
    (hlen : (acts.items.getD []).length = acts.count) (hN : 1 ≤ acts.count)
    (h64 : acts.count < 2 ^ 64) :
    ∀ (j idx : Nat) (stdin : List Nat) (stdout : List Out) (fuel : Nat),
      idx < acts.count → j < fuel →
      (read_keys (j + 1) stdin).1[j]? = some KEY_ENTER →
      (∀ m, m < j → (read_keys (j + 1) stdin).1[m]? ≠ some KEY_ENTER) →
      ∃ out, promptUser_loop text acts fuel idx stdin stdout
        = Outcome.ret
            (((read_keys (j + 1) stdin).1.take j).foldl
              (fun a c => handle_input c acts.count a) idx)
            (read_keys (j + 1) stdin).2 out := by
  intro j
  induction j with
  | zero =>
    intro idx stdin stdout fuel hidx hfuel hent _
    obtain ⟨f, rfl⟩ : ∃ f, fuel = f + 1 := ⟨fuel - 1, by omega⟩
    obtain ⟨act, hact⟩ : ∃ act, (acts.items.getD [])[idx]? = some act :=
      ⟨_, List.getElem?_eq_getElem (by omega)⟩
    rw [read_keys_succ] at hent ⊢
    have hc : (read_action stdin).1 = KEY_ENTER := by simpa using hent
    rw [promptUser_loop_succ _ _ _ _ _ _ _ hact, hc]
    simp [handle_input_enter, read_keys]
  | succ j ih =>
    intro idx stdin stdout fuel hidx hfuel hent hfirst
    obtain ⟨f, rfl⟩ : ∃ f, fuel = f + 1 := ⟨fuel - 1, by omega⟩
    obtain ⟨act, hact⟩ : ∃ act, (acts.items.getD [])[idx]? = some act :=
      ⟨_, List.getElem?_eq_getElem (by omega)⟩
    rw [read_keys_succ] at hent hfirst ⊢
    have hc : (read_action stdin).1 ≠ KEY_ENTER := by
      have := hfirst 0 (by omega)
      simpa using this
    have hent1 : (read_keys (j + 1) (read_action stdin).2).1[j]? = some KEY_ENTER := by
      simpa using hent
    have hfirst1 : ∀ m, m < j →
        (read_keys (j + 1) (read_action stdin).2).1[m]? ≠ some KEY_ENTER := by
      intro m hm
      have := hfirst (m + 1) (by omega)
      simpa using this
    obtain ⟨out, hout⟩ := ih (handle_input (read_action stdin).1 acts.count idx)
      (read_action stdin).2 (render_loop act text 0 (stdout ++ [Out.printf clear_screen])) f
      (handle_input_lt _ _ _ hN h64 hidx) (by omega) hent1 hfirst1
    refine ⟨out, ?_⟩
    rw [promptUser_loop_succ _ _ _ _ _ _ _ hact, if_pos hc, hout]
    simp

theorem foldl_handle_input_lt (N : Nat) (hN : 1 ≤ N) (h64 : N < 2 ^ 64) (ks : List Nat) :
    ∀ idx, idx < N → ks.foldl (fun a c => handle_input c N a) idx < N := by
  induction ks with
  | nil => intro idx h; exact h
  | cons k ks ih => intro idx h; exact ih _ (handle_input_lt k N idx hN h64 h)

theorem Loaded.counts {fmt : List Nat} {txt : SelectableText} (h : Loaded fmt txt)
    (hlen : fmt.length < 2 ^ 64) :
    txt.count = backticks fmt / 2 ∧ txt.actions.count = backticks fmt / 2 ∧
      (txt.actions.items.getD []).length = backticks fmt / 2 ∧
      backticks fmt % 2 = 0 ∧ backticks fmt ≤ fmt.length := by
  obtain ⟨hs, rfl⟩ := Loaded.iff.1 h
  have inv := scanOf_inv fmt hlen
  refine ⟨?_, inv.count, inv.len, (scanOf_start_raw_iff fmt hlen).1 hs, List.count_le_length _ _⟩
  show (scanOf fmt).backticks_seen / 2 = _
  rw [inv.seen]

theorem promptUser_loop_ret_lt (text : List Nat) (acts : Actions) (hN : 1 ≤ acts.count)
    (h64 : acts.count < 2 ^ 64) :
    ∀ (fuel idx : Nat) (stdin : List Nat) (stdout : List Out) (v : Nat) (rest : List Nat)
      (out : List Out), idx < acts.count →
      promptUser_loop text acts fuel idx stdin stdout = Outcome.ret v rest out →
      v < acts.count := by
  intro fuel
  induction fuel with
  | zero => intro idx stdin stdout v rest out _ h; simp [promptUser_loop] at h
  | succ f ih =>
    intro idx stdin stdout v rest out hidx h
    cases hact : (acts.items.getD [])[idx]? with
    | none => simp [promptUser_loop, hact] at h
    | some act =>
      rw [promptUser_loop_succ _ _ _ _ _ _ _ hact] at h
      by_cases hc : (read_action stdin).1 ≠ KEY_ENTER
      · rw [if_pos hc] at h
        exact ih _ _ _ _ _ _ (handle_input_lt _ _ _ hN h64 hidx) h
      · rw [if_neg hc] at h
        injection h with hv _ _
        rw [← hv]
        exact handle_input_lt _ _ _ hN h64 hidx

theorem promptUser_loaded (fmt : List Nat) (txt : SelectableText) (h : Loaded fmt txt)
    (hlen : fmt.length < 2 ^ 64) (hN : 1 ≤ txt.actions.count) (fuel : Nat) (stdin : List Nat)
    (stdout : List Out) :
    ∃ text, txt.text = some text ∧
      selectableText_promptUser fuel (some txt) stdin stdout
        = promptUser_loop text txt.actions fuel 0 stdin stdout := by
  obtain ⟨h1, h2, _⟩ := h.counts hlen
  have hc : txt.count ≠ 0 := by omega
  have hf : txt.fmt_text = some fmt := by
    obtain ⟨_, rfl⟩ := Loaded.iff.1 h
    rfl
  refine ⟨_, h.text_eq, ?_⟩
  simp [selectableText_promptUser, hf, h.text_eq, hc]

/-- C8. Take a successfully loaded text with `N ≥ 1` actions and an input on
which the first `j + 1` calls of `read_action` decode keys of which the one at
position `j` is Enter and none before is. Then, its loop given more than `j`
iterations, `selectableText_promptUser` returns the index obtained from 0 by
the navigation step of each of the keys `0 .. j - 1` in order, with exactly the
input left that those `j + 1` reads leave, and that index is below `N`. On the
text loaded from scenario A the bytes `ESC [ C`, line feed decode to Right,
Enter and the call returns 1. -/
theorem promptUser_returns_focused :
    (∀ (fmt : List Nat) (txt : SelectableText), Loaded fmt txt → fmt.length < 2 ^ 64 →
      1 ≤ txt.actions.count →
      ∀ (stdin : List Nat) (stdout : List Out) (j fuel : Nat), j < fuel →
        (read_keys (j + 1) stdin).1[j]? = some KEY_ENTER →
        (∀ m, m < j → (read_keys (j + 1) stdin).1[m]? ≠ some KEY_ENTER) →
        ∃ out, selectableText_promptUser fuel (some txt) stdin stdout
            = Outcome.ret
                (((read_keys (j + 1) stdin).1.take j).foldl
                  (fun idx c => handle_input c txt.actions.count idx) 0)
                (read_keys (j + 1) stdin).2 out ∧
          ((read_keys (j + 1) stdin).1.take j).foldl
              (fun idx c => handle_input c txt.actions.count idx) 0 < txt.actions.count) ∧
    read_keys 2 [27, 91, 67, 10] = ([KEY_RIGHT, KEY_ENTER], []) ∧
    (∀ (stdout : List Out) (fuel : Nat), 1 < fuel →
      ∃ out, selectableText_promptUser fuel
          (selectableText_loadFmtString allocOk (some (cstr "pick `one` or `two`"))
            (some unloaded)).2 [27, 91, 67, 10] stdout
        = Outcome.ret 1 [] out) := by
  have key : ∀ (fmt : List Nat) (txt : SelectableText), Loaded fmt txt → fmt.length < 2 ^ 64 →
      1 ≤ txt.actions.count →
      ∀ (stdin : List Nat) (stdout : List Out) (j fuel : Nat), j < fuel →
        (read_keys (j + 1) stdin).1[j]? = some KEY_ENTER →
        (∀ m, m < j → (read_keys (j + 1) stdin).1[m]? ≠ some KEY_ENTER) →
        ∃ out, selectableText_promptUser fuel (some txt) stdin stdout
            = Outcome.ret
                (((read_keys (j + 1) stdin).1.take j).foldl
                  (fun idx c => handle_input c txt.actions.count idx) 0)
                (read_keys (j + 1) stdin).2 out ∧
          ((read_keys (j + 1) stdin).1.take j).foldl
              (fun idx c => handle_input c txt.actions.count idx) 0 < txt.actions.count := by
    intro fmt txt hload hlen hN stdin stdout j fuel hfuel hent hfirst
    obtain ⟨_, h2, h3, _, h5⟩ := hload.counts hlen
    have h64 : txt.actions.count < 2 ^ 64 := by omega
    obtain ⟨text, _, hrun⟩ := promptUser_loaded fmt txt hload hlen hN fuel stdin stdout
    obtain ⟨out, hout⟩ := promptUser_loop_run text txt.actions (by omega) hN h64 j 0 stdin stdout
      fuel (by omega) hfuel hent hfirst
    exact ⟨out, by rw [hrun, hout], foldl_handle_input_lt _ hN h64 _ 0 (by omega)⟩
  refine ⟨key, by decide, ?_⟩
  intro stdout fuel hfuel
  rw [scenarioA_loaded unloaded]
  obtain ⟨out, hout, _⟩ := key _ scenarioA ⟨allocOk, unloaded, scenarioA_loaded unloaded⟩
    (by decide) (by decide) [27, 91, 67, 10] stdout 1 fuel hfuel (by decide) (by decide)
  refine ⟨out, ?_⟩
  rw [hout]
  have e1 : ((read_keys (1 + 1) [27, 91, 67, 10]).1.take 1).foldl
      (fun idx c => handle_input c scenarioA.actions.count idx) 0 = 1 := by decide
  have e2 : (read_keys (1 + 1) [27, 91, 67, 10]).2 = [] := by decide
  rw [e1, e2]

/-- C8 on the text of scenario A with the input Right, Enter and one more byte. -/
theorem promptUser_returns_focused_witness :
    Loaded (cstr "pick `one` or `two`") scenarioA ∧
    (cstr "pick `one` or `two`").length < 2 ^ 64 ∧ 1 ≤ scenarioA.actions.count ∧ 1 < 2 ∧
    (read_keys (1 + 1) [27, 91, 67, 10, 65]).1[1]? = some KEY_ENTER ∧
    (∀ m, m < 1 → (read_keys (1 + 1) [27, 91, 67, 10, 65]).1[m]? ≠ some KEY_ENTER) ∧
    ∃ out, selectableText_promptUser 2 (some scenarioA) [27, 91, 67, 10, 65] []
        = Outcome.ret
            (((read_keys (1 + 1) [27, 91, 67, 10, 65]).1.take 1).foldl
              (fun idx c => handle_input c scenarioA.actions.count idx) 0)
            (read_keys (1 + 1) [27, 91, 67, 10, 65]).2 out ∧
      ((read_keys (1 + 1) [27, 91, 67, 10, 65]).1.take 1).foldl
          (fun idx c => handle_input c scenarioA.actions.count idx) 0
        < scenarioA.actions.count :=
  ⟨⟨allocOk, unloaded, scenarioA_loaded unloaded⟩, by decide, by decide, by decide, by decide,
    by decide,
    promptUser_returns_focused.1 _ scenarioA ⟨allocOk, unloaded, scenarioA_loaded unloaded⟩
      (by decide) (by decide) [27, 91, 67, 10, 65] [] 1 2 (by decide) (by decide) (by decide)⟩

theorem emptyPair_loaded (t0 : SelectableText) :
    selectableText_loadFmtString allocOk (some (cstr "``")) (some t0) = (true, some emptyPair) :=
  (loadFmtString_eq_true_iff allocOk _ t0 _).2 ⟨rfl, rfl, by decide, by decide⟩

/-- C6, evaluated where it fails. The format string of two backticks loads
into the empty plain text with the single action `(0, SIZE_MAX)`; re-inserting
the delimiters gives a single backtick, not the format string. The round trip
does give back the format string of scenario A and the string `a`, two
backticks, `b`. -/
theorem roundtrip_fails_on_leading_empty_pair :
    selectableText_loadFmtString allocOk (some (cstr "``")) (some unloaded)
      = (true, some emptyPair) ∧
    reinsertDelimiters [] [⟨0, SIZE_MAX⟩] = cstr "`" ∧
    reinsertDelimiters [] [⟨0, SIZE_MAX⟩] ≠ cstr "``" ∧
    reinsertDelimiters (cstr "pick one or two") [⟨5, 7⟩, ⟨12, 14⟩] = cstr "pick `one` or `two`" ∧
    reinsertDelimiters (cstr "ab") [⟨1, 0⟩] = cstr "a``b" :=
  ⟨emptyPair_loaded unloaded, by decide, by decide, by decide, by decide⟩

/-- C10 as stated fails. The text loaded from the format string of two
backticks has the empty plain text and one action, and on the input of one
line feed `selectableText_promptUser` does not fail: it clears the screen,
reads the key and returns the index 0. -/
theorem promptUser_runs_on_empty_text :
    selectableText_loadFmtString allocOk (some (cstr "``")) (some unloaded)
      = (true, some emptyPair) ∧
    emptyPair.text = some [] ∧
    selectableText_promptUser 1 (some emptyPair) [10] []
      = Outcome.ret 0 [] [Out.printf clear_screen, Out.printf end_reverse] ∧
    selectableText_promptUser 1 (some emptyPair) [10] [] ≠ Outcome.ret SIZE_MAX [10] [] :=
  ⟨emptyPair_loaded unloaded, rfl, by decide, by decide⟩

/-- C10, amended. `selectableText_promptUser` fails at once with `(size_t)-1`,
writing nothing and reading no key, for a `NULL` instance, for every instance
whose `count` is zero, and so for every loaded text with zero actions. An empty
plain text alone is no failure: on a loaded text with at least one action the
call never returns `(size_t)-1`. -/
theorem promptUser_nothing_selectable :
    (∀ (fuel : Nat) (stdin : List Nat) (stdout : List Out),
      selectableText_promptUser fuel none stdin stdout = Outcome.ret SIZE_MAX stdin stdout) ∧
    (∀ (t : SelectableText) (fuel : Nat) (stdin : List Nat) (stdout : List Out), t.count = 0 →
      selectableText_promptUser fuel (some t) stdin stdout = Outcome.ret SIZE_MAX stdin stdout) ∧
    (∀ (fmt : List Nat) (txt : SelectableText), Loaded fmt txt → fmt.length < 2 ^ 64 →
      txt.actions.count = 0 → ∀ (fuel : Nat) (stdin : List Nat) (stdout : List Out),
      selectableText_promptUser fuel (some txt) stdin stdout
        = Outcome.ret SIZE_MAX stdin stdout) ∧
    (∀ (fmt : List Nat) (txt : SelectableText), Loaded fmt txt → fmt.length < 2 ^ 64 →
      1 ≤ txt.actions.count → ∀ (fuel : Nat) (stdin rest : List Nat) (stdout out : List Out),
      selectableText_promptUser fuel (some txt) stdin stdout ≠ Outcome.ret SIZE_MAX rest out) := by
  have hzero : ∀ (t : SelectableText) (fuel : Nat) (stdin : List Nat) (stdout : List Out),
      t.count = 0 →
      selectableText_promptUser fuel (some t) stdin stdout
        = Outcome.ret SIZE_MAX stdin stdout := by
    intro t fuel stdin stdout h
    unfold selectableText_promptUser
    simp only [h, if_true]
    split <;> rfl
  refine ⟨fun _ _ _ => rfl, hzero, ?_, ?_⟩
  · intro fmt txt hload hlen h0 fuel stdin stdout
    obtain ⟨h1, h2, _⟩ := hload.counts hlen
    exact hzero txt fuel stdin stdout (by omega)
  · intro fmt txt hload hlen hN fuel stdin rest stdout out heq
    obtain ⟨_, h2, _, _, h5⟩ := hload.counts hlen
    have h64 : txt.actions.count < 2 ^ 64 := by omega
    obtain ⟨text, _, hrun⟩ := promptUser_loaded fmt txt hload hlen hN fuel stdin stdout
    rw [hrun] at heq
    have hlt := promptUser_loop_ret_lt text txt.actions hN h64 fuel 0 stdin stdout _ _ _
      (by omega) heq
    have : SIZE_MAX = 2 ^ 64 - 1 := rfl
    omega

/-- C10, amended, on an instance nothing was loaded into, on the text loaded
from a format string without backticks, and on the text loaded from two
backticks. -/
theorem promptUser_nothing_selectable_witness :
    unloaded.count = 0 ∧
    selectableText_promptUser 3 (some unloaded) [10] [] = Outcome.ret SIZE_MAX [10] [] ∧
    Loaded (cstr "``") emptyPair ∧ (cstr "``").length < 2 ^ 64 ∧ 1 ≤ emptyPair.actions.count ∧
    selectableText_promptUser 3 (some emptyPair) [10] [] ≠ Outcome.ret SIZE_MAX [10] [] :=
  ⟨rfl, promptUser_nothing_selectable.2.1 unloaded 3 [10] [] rfl,
    ⟨allocOk, unloaded, emptyPair_loaded unloaded⟩, by decide, by decide,
    promptUser_nothing_selectable.2.2.2 _ emptyPair ⟨allocOk, unloaded, emptyPair_loaded unloaded⟩
      (by decide) (by decide) 3 [10] [10] [] []⟩

/-! ## Format strings without backticks: claim C11 -/

theorem loadFmtString_loop_no_backtick (p : List Nat) (hp : BACKTICK ∉ p) :
    ∀ (i : Nat) (s : ScanState), loadFmtString_loop p i s
      = { s with plain := s.plain ++ p, plain_index := s.plain_index + p.length } := by
  induction p with
  | nil => intro i s; simp [loadFmtString_loop]
  | cons c cs ih =>
    intro i s
    have hc : c ≠ BACKTICK := fun h => hp (h ▸ List.mem_cons_self _ _)
    have hcs : BACKTICK ∉ cs := fun h => hp (List.mem_cons_of_mem _ h)
    rw [loadFmtString_loop, ih hcs]
    simp [loadFmtString_body, hc, Nat.add_assoc, Nat.add_comm 1]

/-- C11. For every format string without a backtick, the load, its allocations
succeeding, returns true with `text` and `fmt_text` equal to the input,
`count = 0` and the action list `NULL`, 0, 0; and on that instance
`selectableText_promptUser` returns `(size_t)-1` with the input and the output
untouched. The string "no actions here" is such a format string. -/
theorem loadFmtString_no_backtick :
    (∀ (fmt : List Nat) (t0 : SelectableText), BACKTICK ∉ fmt →
      selectableText_loadFmtString allocOk (some fmt) (some t0)
        = (true, some { fmt_text := some fmt, text := some fmt, count := 0,
                        actions := { items := none, count := 0, capacity := 0 } }) ∧
      ∀ (fuel : Nat) (stdin : List Nat) (stdout : List Out),
        selectableText_promptUser fuel
            (selectableText_loadFmtString allocOk (some fmt) (some t0)).2 stdin stdout
          = Outcome.ret SIZE_MAX stdin stdout) ∧
    BACKTICK ∉ cstr "no actions here" := by
  refine ⟨?_, by decide⟩
  intro fmt t0 hfmt
  have hscan : scanOf fmt = { scanInit with plain := fmt, plain_index := fmt.length } := by
    rw [scanOf, loadFmtString_loop_no_backtick fmt hfmt]
    simp [scanInit]
  have hload : selectableText_loadFmtString allocOk (some fmt) (some t0)
      = (true, some { fmt_text := some fmt, text := some fmt, count := 0,
                      actions := { items := none, count := 0, capacity := 0 } }) := by
    refine (loadFmtString_eq_true_iff allocOk fmt t0 _).2 ⟨rfl, rfl, ?_, ?_⟩
    · rw [hscan]; rfl
    · rw [hscan]; simp [scanInit]
  refine ⟨hload, ?_⟩
  intro fuel stdin stdout
  rw [hload]
  rfl

/-- C11 at the format string "no actions here". -/
theorem loadFmtString_no_backtick_witness :
    BACKTICK ∉ cstr "no actions here" ∧
    selectableText_loadFmtString allocOk (some (cstr "no actions here")) (some unloaded)
      = (true, some { fmt_text := some (cstr "no actions here")
                      text := some (cstr "no actions here"), count := 0
                      actions := { items := none, count := 0, capacity := 0 } }) ∧
    ∀ (fuel : Nat) (stdin : List Nat) (stdout : List Out),
      selectableText_promptUser fuel
          (selectableText_loadFmtString allocOk (some (cstr "no actions here"))
            (some unloaded)).2 stdin stdout
        = Outcome.ret SIZE_MAX stdin stdout :=
  ⟨by decide, loadFmtString_no_backtick.1 (cstr "no actions here") unloaded (by decide)⟩

/-! ## The key decoder: claims C12 and C13 -/

theorem handle_input_other (c N idx : Nat) (h1 : c ≠ KEY_UP) (h2 : c ≠ KEY_DOWN)
    (h3 : c ≠ KEY_RIGHT) (h4 : c ≠ KEY_LEFT) : handle_input c N idx = idx := by
  simp [handle_input, h1, h2, h3, h4]

/-- A single byte that is not ESC, CR, LF or one of `233 .. 236` is passed
through by `read_action` and is a no-op of the selection loop. -/
theorem read_action_other_byte (b : Nat) (rest : List Nat) (N idx : Nat) (hb : b < 256)
    (h27 : b ≠ 27) (h13 : b ≠ 13) (h10 : b ≠ 10) (hkey : b < 233 ∨ 236 < b) :
    read_action (b :: rest) = (b, rest) ∧ handle_input b N idx = idx ∧ b ≠ KEY_ENTER := by
  have hmod : b % 256 = b := Nat.mod_eq_of_lt hb
  have hk : KEY_UP = 233 ∧ KEY_DOWN = 234 ∧ KEY_RIGHT = 235 ∧ KEY_LEFT = 236 ∧ KEY_ENTER = 10 := by
    decide
  obtain ⟨k1, k2, k3, k4, k5⟩ := hk
  refine ⟨?_, ?_, ?_⟩
  · simp [read_action, getchar, hmod, h27, h13, h10]
  · apply handle_input_other <;> omega
  · omega

/-- C12, evaluated where it fails. The single input bytes 233, 234, 235 and
236 are none of ESC, CR and LF, and `read_action` returns them unchanged; they
equal `KEY_UP`, `KEY_DOWN`, `KEY_RIGHT` and `KEY_LEFT`, the constants 1001 to
1004 cut to a `char`, so the selection loop moves the focused index on them:
with two actions each takes the index 0 to 1, and on the text of scenario A the
input 233, line feed returns 1, not 0. -/
theorem read_action_key_code_collision :
    read_action [233] = (KEY_UP, []) ∧ read_action [234] = (KEY_DOWN, []) ∧
    read_action [235] = (KEY_RIGHT, []) ∧ read_action [236] = (KEY_LEFT, []) ∧
    handle_input (read_action [233]).1 2 0 = 1 ∧ handle_input (read_action [234]).1 2 0 = 1 ∧
    handle_input (read_action [235]).1 2 0 = 1 ∧ handle_input (read_action [236]).1 2 0 = 1 ∧
    (selectableText_promptUser 2 (some scenarioA) [233, 10] []).returned = some (1, []) ∧
    (selectableText_promptUser 2 (some scenarioA) [65, 10] []).returned = some (0, []) := by
  decide

/-- C13. `read_action` decodes `ESC [ A`, `ESC [ B`, `ESC [ C`, `ESC [ D` to
Up, Down, Right, Left and a single CR or LF to Enter, consuming exactly those
bytes; the five key values are pairwise distinct; and every other sequence of
ESC and two bytes (the second not `[`, or the third not in `A .. D`) is consumed
whole and decodes to a value that is not Enter and leaves every focused index
unchanged. -/
theorem read_action_decodes :
    (∀ rest, read_action (27 :: 91 :: 65 :: rest) = (KEY_UP, rest)) ∧
    (∀ rest, read_action (27 :: 91 :: 66 :: rest) = (KEY_DOWN, rest)) ∧
    (∀ rest, read_action (27 :: 91 :: 67 :: rest) = (KEY_RIGHT, rest)) ∧
    (∀ rest, read_action (27 :: 91 :: 68 :: rest) = (KEY_LEFT, rest)) ∧
    (∀ rest, read_action (13 :: rest) = (KEY_ENTER, rest)) ∧
    (∀ rest, read_action (10 :: rest) = (KEY_ENTER, rest)) ∧
    [KEY_UP, KEY_DOWN, KEY_RIGHT, KEY_LEFT, KEY_ENTER].Pairwise (fun a b => a ≠ b) ∧
    (∀ (s1 s2 : Nat) (rest : List Nat), s1 < 256 → s2 < 256 →
      (s1 ≠ 91 ∨ s2 < 65 ∨ 68 < s2) →
      (read_action (27 :: s1 :: s2 :: rest)).2 = rest ∧
      (read_action (27 :: s1 :: s2 :: rest)).1 ≠ KEY_ENTER ∧
      ∀ N idx, handle_input (read_action (27 :: s1 :: s2 :: rest)).1 N idx = idx) := by
  refine ⟨fun _ => rfl, fun _ => rfl, fun _ => rfl, fun _ => rfl, fun _ => rfl, fun _ => rfl,
    by decide, ?_⟩
  intro s1 s2 rest h1 h2 hne
  have hm1 : s1 % 256 = s1 := Nat.mod_eq_of_lt h1
  have hm2 : s2 % 256 = s2 := Nat.mod_eq_of_lt h2
  have hread : read_action (27 :: s1 :: s2 :: rest) = (27, rest) := by
    by_cases h91 : s1 = 91
    · have a : s2 ≠ 65 := by omega
      have b : s2 ≠ 66 := by omega
      have c : s2 ≠ 67 := by omega
      have d : s2 ≠ 68 := by omega
      simp [read_action, getchar, hm2, h91, a, b, c, d]
    · simp [read_action, getchar, hm1, h91]
  rw [hread]
  refine ⟨rfl, ?_, fun N idx => ?_⟩
  · show (27 : Nat) ≠ KEY_ENTER
    decide
  · show handle_input 27 N idx = idx
    apply handle_input_other <;> decide

/-- C13 on the sequence `ESC O A`. -/
theorem read_action_decodes_witness :
    79 < 256 ∧ 65 < 256 ∧ ((79 : Nat) ≠ 91 ∨ 65 < 65 ∨ 68 < 65) ∧
    (read_action (27 :: 79 :: 65 :: [10])).2 = [10] ∧
    (read_action (27 :: 79 :: 65 :: [10])).1 ≠ KEY_ENTER ∧
    ∀ N idx, handle_input (read_action (27 :: 79 :: 65 :: [10])).1 N idx = idx :=
  ⟨by decide, by decide, by decide,
    read_action_decodes.2.2.2.2.2.2.2 79 65 [10] (by decide) (by decide) (by decide)⟩

/-! ## Navigation steps are inverse to each other: claim C19 -/

/-- C19. With `N ≥ 1` actions (`N` a `size_t`) and a focused index `k < N`, for
`d` the Down or the Right key and `u` the Up or the Left key: the `d` step
followed by the `u` step returns to `k`, the `u` step followed by the `d` step
returns to `k`, and both steps stay below `N`. -/
theorem navigation_inverse (N k d u : Nat) (hN : 1 ≤ N) (h64 : N < 2 ^ 64) (hk : k < N)
    (hd : d = KEY_DOWN ∨ d = KEY_RIGHT) (hu : u = KEY_UP ∨ u = KEY_LEFT) :
    handle_input u N (handle_input d N k) = k ∧ handle_input d N (handle_input u N k) = k ∧
    handle_input d N k < N ∧ handle_input u N k < N := by
  have hdn : ∀ x, x < N → handle_input d N x = if x + 1 < N then x + 1 else 0 := by
    intro x hx
    rw [handle_input_down d N x hd hN h64 hx]
    by_cases h : x + 1 < N
    · rw [if_pos h, Nat.mod_eq_of_lt h]
    · have : x + 1 = N := by omega
      rw [if_neg h, this, Nat.mod_self]
  have hup : ∀ x, handle_input u N x = if x = 0 then N - 1 else x - 1 :=
    fun x => handle_input_up u N x hu hN h64
  have hdk := handle_input_lt d N k hN h64 hk
  have huk := handle_input_lt u N k hN h64 hk
  refine ⟨?_, ?_, hdk, huk⟩
  · rw [hup, hdn k hk]
    split_ifs <;> first | omega | contradiction
  · rw [hdn _ huk, hup]
    split_ifs <;> omega

/-- C19 with three actions, from the last index, for Down and Up. -/
theorem navigation_inverse_witness :
    1 ≤ 3 ∧ 3 < 2 ^ 64 ∧ 2 < 3 ∧
    (handle_input KEY_UP 3 (handle_input KEY_DOWN 3 2) = 2 ∧
      handle_input KEY_DOWN 3 (handle_input KEY_UP 3 2) = 2 ∧
      handle_input KEY_DOWN 3 2 < 3 ∧ handle_input KEY_UP 3 2 < 3) :=
  ⟨by decide, by decide, by decide,
    navigation_inverse 3 2 KEY_DOWN KEY_UP (by decide) (by decide) (by decide)
      (Or.inl rfl) (Or.inl rfl)⟩

/-! ## Every action comes from a delimiter pair -/

theorem exists_backtick_index (l : List Nat) :
    ∀ k, k < backticks l → ∃ r, l[r]? = some BACKTICK ∧ backticks (l.take r) = k := by
  induction l using List.reverseRecOn with
  | nil => intro k hk; simp [backticks] at hk
  | append_singleton p x ih =>
    intro k hk
    by_cases hlt : k < backticks p
    · obtain ⟨r, h1, h2⟩ := ih k hlt
      have hr := lt_length_of_getElem? h1
      refine ⟨r, ?_, ?_⟩
      · rw [List.getElem?_append_left hr]; exact h1
      · rw [List.take_append_of_le_length (Nat.le_of_lt hr)]; exact h2
    · have hx : x = BACKTICK := by
        by_contra hne
        have : backticks (p ++ [x]) = backticks p := by
          simp [backticks, List.count_singleton, hne]
        omega
      subst hx
      rw [backticks_snoc_backtick] at hk
      refine ⟨p.length, List.getElem?_concat_length p BACKTICK, ?_⟩
      rw [List.take_append_of_le_length (Nat.le_refl _), List.take_length]
      omega

theorem exists_pair (fmt : List Nat) (i : Nat) (h : 2 * i + 1 < backticks fmt) :
    ∃ o c, IsPair fmt i o c := by
  obtain ⟨o, ho1, ho2⟩ := exists_backtick_index fmt (2 * i) (by omega)
  obtain ⟨c, hc1, hc2⟩ := exists_backtick_index fmt (2 * i + 1) h
  exact ⟨o, c, ho1, hc1, ho2, hc2⟩

/-- Between two raw indices there are at most as many backticks as characters. -/
theorem backticks_take_sub_le (l : List Nat) {m n : Nat} (h : m ≤ n) :
    backticks (l.take n) ≤ backticks (l.take m) + (n - m) := by
  have hsplit : l.take n = l.take m ++ (l.drop m).take (n - m) := by
    have : n = m + (n - m) := by omega
    conv_lhs => rw [this]
    exact List.take_add l m (n - m)
  rw [hsplit, backticks_append]
  have h1 := List.count_le_length BACKTICK ((l.drop m).take (n - m))
  have h2 := List.length_take_le (n - m) (l.drop m)
  have : backticks ((l.drop m).take (n - m)) ≤ n - m := le_trans h1 h2
  omega

/-- In a loaded text, the action at index `i` is the one of the `i`-th pair. -/
theorem Loaded.pair_of_action {fmt : List Nat} {txt : SelectableText} (h : Loaded fmt txt)
    (hlen : fmt.length < 2 ^ 64) {i : Nat} {a : Action}
    (ha : (txt.actions.items.getD [])[i]? = some a) :
    ∃ o c, IsPair fmt i o c ∧ a = ⟨o - 2 * i, szSub (szSub c (2 * i + 1)) 1⟩ := by
  obtain ⟨_, _, h3, h4, _⟩ := h.counts hlen
  have hi := lt_length_of_getElem? ha
  obtain ⟨o, c, hp⟩ := exists_pair fmt i (by omega)
  have := h.action_of_pair hlen hp
  rw [ha] at this
  exact ⟨o, c, hp, Option.some.inj this⟩

/-! ## Order of the actions: claims C16 and C17 -/

/-- C16. After a successful load of a format string shorter than `2^64`, for
all `i < j` the action at index `i` starts no later than the action at index
`j`. -/
theorem loadFmtString_actions_sorted (fmt : List Nat) (txt : SelectableText)
    (hload : Loaded fmt txt) (hlen : fmt.length < 2 ^ 64) (i j : Nat) (a b : Action)
    (hij : i < j) (ha : (txt.actions.items.getD [])[i]? = some a)
    (hb : (txt.actions.items.getD [])[j]? = some b) : a.start_pos ≤ b.start_pos := by
  obtain ⟨o, c, hp, rfl⟩ := hload.pair_of_action hlen ha
  obtain ⟨o', c', hp', rfl⟩ := hload.pair_of_action hlen hb
  show o - 2 * i ≤ o' - 2 * j
  have hoo : o ≤ o' := by
    by_contra hc
    have := backticks_take_mono fmt (Nat.le_of_lt (Nat.lt_of_not_le hc))
    rw [hp.2.2.1, hp'.2.2.1] at this
    omega
  have hsub := backticks_take_sub_le fmt hoo
  rw [hp.2.2.1, hp'.2.2.1] at hsub
  omega

/-- C16 on the two actions of scenario A. -/
theorem loadFmtString_actions_sorted_witness :
    Loaded (cstr "pick `one` or `two`") scenarioA ∧
    (cstr "pick `one` or `two`").length < 2 ^ 64 ∧ 0 < 1 ∧
    (scenarioA.actions.items.getD [])[0]? = some ⟨5, 7⟩ ∧
    (scenarioA.actions.items.getD [])[1]? = some ⟨12, 14⟩ ∧
    (⟨5, 7⟩ : Action).start_pos ≤ (⟨12, 14⟩ : Action).start_pos :=
  ⟨⟨allocOk, unloaded, scenarioA_loaded unloaded⟩, by decide, by decide, rfl, rfl,
    loadFmtString_actions_sorted _ scenarioA ⟨allocOk, unloaded, scenarioA_loaded unloaded⟩
      (by decide) 0 1 ⟨5, 7⟩ ⟨12, 14⟩ (by decide) rfl rfl⟩

/-- C17. After a successful load of a format string shorter than `2^64` in
which no closing backtick stands right after its opening backtick, consecutive
actions do not overlap: the action at index `i` ends before the action at
index `i + 1` starts. -/
theorem loadFmtString_actions_disjoint (fmt : List Nat) (txt : SelectableText)
    (hload : Loaded fmt txt) (hlen : fmt.length < 2 ^ 64)
    (hne : ∀ i o c, IsPair fmt i o c → o + 1 < c) (i : Nat) (a b : Action)
    (ha : (txt.actions.items.getD [])[i]? = some a)
    (hb : (txt.actions.items.getD [])[i + 1]? = some b) : a.end_pos < b.start_pos := by
  obtain ⟨o, c, hp, rfl⟩ := hload.pair_of_action hlen ha
  obtain ⟨o', c', hp', rfl⟩ := hload.pair_of_action hlen hb
  show szSub (szSub c (2 * i + 1)) 1 < o' - 2 * (i + 1)
  have hoc := hne i o c hp
  have hoi : 2 * i ≤ o := by rw [← hp.2.2.1]; exact backticks_take_le fmt o
  have hcl := hp.close_lt
  have hco : c < o' := by
    by_contra hc
    have := backticks_take_mono fmt (Nat.le_of_not_lt hc)
    rw [hp.2.2.2, hp'.2.2.1] at this
    omega
  have e1 : szSub c (2 * i + 1) = c - (2 * i + 1) := szSub_of_le (by omega) (by omega)
  rw [e1, szSub_of_le (by omega) (by omega)]
  omega

/-- C17 on the two actions of scenario A. -/
theorem loadFmtString_actions_disjoint_witness :
    Loaded (cstr "pick `one` or `two`") scenarioA ∧
    (cstr "pick `one` or `two`").length < 2 ^ 64 ∧
    (∀ i o c, IsPair (cstr "pick `one` or `two`") i o c → o + 1 < c) ∧
    (scenarioA.actions.items.getD [])[0]? = some ⟨5, 7⟩ ∧
    (scenarioA.actions.items.getD [])[0 + 1]? = some ⟨12, 14⟩ ∧
    (⟨5, 7⟩ : Action).end_pos < (⟨12, 14⟩ : Action).start_pos :=
  have hne : ∀ i o c, IsPair (cstr "pick `one` or `two`") i o c → o + 1 < c := by
    intro i o c hp
    have key : ∀ r, r < 18 → ¬ ((cstr "pick `one` or `two`")[r]? = some BACKTICK ∧
        (cstr "pick `one` or `two`")[r + 1]? = some BACKTICK) := by decide
    have hc := hp.close_lt
    have ho := hp.lt
    have hlen : (cstr "pick `one` or `two`").length = 19 := by decide
    rw [hlen] at hc
    by_contra hcon
    have hceq : c = o + 1 := by omega
    subst hceq
    exact key o (by omega) ⟨hp.1, hp.2.1⟩
  ⟨⟨allocOk, unloaded, scenarioA_loaded unloaded⟩, by decide, hne, rfl, rfl,
    loadFmtString_actions_disjoint _ scenarioA ⟨allocOk, unloaded, scenarioA_loaded unloaded⟩
      (by decide) hne 0 ⟨5, 7⟩ ⟨12, 14⟩ rfl rfl⟩

/-! ## What a failed load leaves behind: claim C14 -/

/-- A successful load leaves an instance that the format string alone determines. -/
theorem loadFmtString_success_determined (al al' : Alloc) (fmt : List Nat)
    (t0 t0' txt txt' : SelectableText)
    (h : selectableText_loadFmtString al (some fmt) (some t0) = (true, some txt))
    (h' : selectableText_loadFmtString al' (some fmt) (some t0') = (true, some txt')) :
    txt = txt' := by
  rw [((loadFmtString_eq_true_iff al fmt t0 txt).1 h).2.2.2,
    ((loadFmtString_eq_true_iff al' fmt t0' txt').1 h').2.2.2]

/-- C14, evaluated where it fails. The load of "bad `unmatched" returns false
and leaves `fmt_text`, `text` and `count` as they were before the call, only
the action list being reset; so from an instance nothing was loaded into and
from the instance of scenario A the same call leaves different `fmt_text`,
`text` and `count`. The same holds of a load whose `malloc` fails. -/
theorem loadFmtString_failure_keeps_members :
    (∀ (al : Alloc) (t0 : SelectableText),
      selectableText_loadFmtString al (some (cstr "bad `unmatched")) (some t0)
        = (false, some { fmt_text := t0.fmt_text, text := t0.text, count := t0.count,
                         actions := { items := none, count := 0, capacity := 0 } })) ∧
    (∀ (fmt : List Nat) (t0 : SelectableText),
      selectableText_loadFmtString { malloc_ok := false, strdup_ok := true } (some fmt) (some t0)
        = (false, some { fmt_text := t0.fmt_text, text := t0.text, count := t0.count,
                         actions := { items := none, count := 0, capacity := 0 } })) ∧
    selectableText_loadFmtString allocOk (some (cstr "bad `unmatched")) (some unloaded)
      = (false, some unloaded) ∧
    selectableText_loadFmtString allocOk (some (cstr "bad `unmatched")) (some scenarioA)
      = (false, some { fmt_text := some (cstr "pick `one` or `two`")
                       text := some (cstr "pick one or two"), count := 2
                       actions := { items := none, count := 0, capacity := 0 } }) ∧
    unloaded.fmt_text ≠ scenarioA.fmt_text ∧ unloaded.text ≠ scenarioA.text ∧
    unloaded.count ≠ scenarioA.count := by
  have hopen : (scanOf (cstr "bad `unmatched")).start_raw ≠ SIZE_MAX := by decide
  refine ⟨fun al t0 => loadFmtString_eq_false_of_open al _ t0 hopen, fun fmt t0 => rfl,
    loadFmtString_eq_false_of_open _ _ _ hopen, loadFmtString_eq_false_of_open _ _ _ hopen,
    by decide, by decide, by decide⟩

/-! ## Rendering: claims C15 and C18 -/

theorem promptUser_loop_render_pass (text : List Nat) (acts : Actions) (fuel idx : Nat)
    (stdin : List Nat) (stdout : List Out) :
    promptUser_loop text acts (fuel + 1) idx stdin stdout
      = match render_pass text acts idx stdout with
        | none => Outcome.fault
        | some stdout2 =>
          if (read_action stdin).1 ≠ KEY_ENTER then
            promptUser_loop text acts fuel (handle_input (read_action stdin).1 acts.count idx)
              (read_action stdin).2 stdout2
          else
            Outcome.ret (handle_input (read_action stdin).1 acts.count idx) (read_action stdin).2
              (stdout2 ++ [Out.printf end_reverse]) := by
  unfold render_pass
  cases h : (acts.items.getD [])[idx]? with
  | none => simp [promptUser_loop, h]
  | some act => simp [promptUser_loop, h]

theorem stripControl_append (a b : List Out) :
    stripControl (a ++ b) = stripControl a ++ stripControl b := by
  simp [stripControl]

theorem stripControl_nil : stripControl [] = [] := rfl

theorem stripControl_cons_putchar (c : Nat) (l : List Out) :
    stripControl (Out.putchar c :: l) = Out.putchar c :: stripControl l := by
  simp [stripControl]

theorem stripControl_cons_start (l : List Out) :
    stripControl (Out.printf start_reverse :: l) = stripControl l := by
  simp [stripControl]

theorem stripControl_cons_end (l : List Out) :
    stripControl (Out.printf end_reverse :: l) = stripControl l := by
  simp [stripControl]

theorem stripControl_cons_clear (l : List Out) :
    stripControl (Out.printf clear_screen :: l) = stripControl l := by
  simp [stripControl]

theorem stripControl_render_loop (act : Action) (text : List Nat) :
    ∀ (i : Nat) (out : List Out),
      stripControl (render_loop act text i out) = stripControl out ++ text.map Out.putchar := by
  induction text with
  | nil => intro i out; simp [render_loop]
  | cons ch rest ih =>
    intro i out
    simp only [render_loop]
    rw [ih]
    split_ifs <;>
      simp [stripControl_append, stripControl_nil, stripControl_cons_putchar,
        stripControl_cons_start, stripControl_cons_end]

/-- C18. For every loaded text with at least one action and every focused
index `k` below the number of actions, the render pass happens, and its output
with the clear-screen, begin-highlight and end-highlight writes removed is the
characters of `txt.text`, in order, each written once by `putchar`. -/
theorem render_pass_emits_text (fmt : List Nat) (txt : SelectableText) (hload : Loaded fmt txt)
    (hlen : fmt.length < 2 ^ 64) (k : Nat) (hk : k < txt.actions.count) :
    ∃ text out, txt.text = some text ∧ render_pass text txt.actions k [] = some out ∧
      stripControl out = text.map Out.putchar := by
  obtain ⟨_, h2, h3, _, _⟩ := hload.counts hlen
  obtain ⟨act, hact⟩ : ∃ act, (txt.actions.items.getD [])[k]? = some act :=
    ⟨_, List.getElem?_eq_getElem (by omega)⟩
  have hpass : render_pass (fmt.filter (fun c => decide (c ≠ BACKTICK))) txt.actions k []
      = some (render_loop act (fmt.filter (fun c => decide (c ≠ BACKTICK))) 0
          ([] ++ [Out.printf clear_screen])) := by
    simp only [render_pass, hact]
  refine ⟨_, _, hload.text_eq, hpass, ?_⟩
  rw [stripControl_render_loop]
  simp [stripControl_cons_clear, stripControl_nil]

/-- C18 on the text of scenario A with the second action focused. -/
theorem render_pass_emits_text_witness :
    Loaded (cstr "pick `one` or `two`") scenarioA ∧
    (cstr "pick `one` or `two`").length < 2 ^ 64 ∧ 1 < scenarioA.actions.count ∧
    ∃ text out, scenarioA.text = some text ∧ render_pass text scenarioA.actions 1 [] = some out ∧
      stripControl out = text.map Out.putchar :=
  ⟨⟨allocOk, unloaded, scenarioA_loaded unloaded⟩, by decide, by decide,
    render_pass_emits_text _ scenarioA ⟨allocOk, unloaded, scenarioA_loaded unloaded⟩
      (by decide) 1 (by decide)⟩

theorem render_loop_acc (act : Action) (text : List Nat) :
    ∀ (i : Nat) (out : List Out),
      render_loop act text i out = out ++ render_loop act text i [] := by
  induction text with
  | nil => intro i out; simp [render_loop]
  | cons ch rest ih =>
    intro i out
    simp only [render_loop]
    conv_lhs => rw [ih]
    conv_rhs => rw [ih]
    split_ifs <;> simp

theorem render_loop_cons (act : Action) (ch : Nat) (rest : List Nat) (i : Nat) :
    render_loop act (ch :: rest) i []
      = (if i = act.start_pos then [Out.printf start_reverse] else []) ++
        (Out.putchar ch :: ((if i = act.end_pos then [Out.printf end_reverse] else []) ++
          render_loop act rest (i + 1) [])) := by
  simp only [render_loop]
  rw [render_loop_acc]
  split_ifs <;> simp

theorem highlightScan_start (rest : List Out) (lit : Bool) (i : Nat) :
    highlightScan (Out.printf start_reverse :: rest) lit i = highlightScan rest true i := by
  simp [highlightScan]

theorem highlightScan_end (rest : List Out) (lit : Bool) (i : Nat) :
    highlightScan (Out.printf end_reverse :: rest) lit i = highlightScan rest false i := by
  have h : end_reverse ≠ start_reverse := by decide
  simp [highlightScan, h]

theorem highlightScan_clear (rest : List Out) (lit : Bool) (i : Nat) :
    highlightScan (Out.printf clear_screen :: rest) lit i = highlightScan rest lit i := by
  have h1 : clear_screen ≠ start_reverse := by decide
  have h2 : clear_screen ≠ end_reverse := by decide
  simp [highlightScan, h1, h2]

theorem highlightScan_putchar (c : Nat) (rest : List Out) (lit : Bool) (i : Nat) :
    highlightScan (Out.putchar c :: rest) lit i
      = if lit then i :: highlightScan rest lit (i + 1) else highlightScan rest lit (i + 1) := by
  simp [highlightScan]

/-- Past both offsets of the action the render loop switches nothing. -/
theorem highlightScan_render_after (act : Action) (text : List Nat) :
    ∀ (i : Nat) (lit : Bool), act.start_pos < i → act.end_pos < i →
      highlightScan (render_loop act text i []) lit i
        = if lit then List.range' i text.length else [] := by
  induction text with
  | nil => intro i lit _ _; cases lit <;> simp [render_loop, highlightScan]
  | cons ch rest ih =>
    intro i lit hs he
    have h1 : i ≠ act.start_pos := by omega
    have h2 : i ≠ act.end_pos := by omega
    rw [render_loop_cons, if_neg h1, if_neg h2]
    simp only [List.nil_append]
    rw [highlightScan_putchar, ih (i + 1) lit (by omega) (by omega)]
    cases lit <;> simp [List.range'_succ]

/-- From inside the action on, the render loop keeps reverse video on up to
`end_pos`. -/
theorem highlightScan_render_inside (act : Action) (text : List Nat) :
    ∀ (i : Nat), act.start_pos < i → i ≤ act.end_pos → act.end_pos < i + text.length →
      highlightScan (render_loop act text i []) true i
        = List.range' i (act.end_pos - i + 1) := by
  induction text with
  | nil => intro i _ h1 h2; simp at h2; omega
  | cons ch rest ih =>
    intro i hs hle hlt
    have h1 : i ≠ act.start_pos := by omega
    rw [render_loop_cons, if_neg h1]
    simp only [List.nil_append]
    rw [highlightScan_putchar, if_pos rfl]
    by_cases h2 : i = act.end_pos
    · rw [if_pos h2]
      simp only [List.singleton_append]
      rw [highlightScan_end, highlightScan_render_after act rest (i + 1) false (by omega) (by omega)]
      have : act.end_pos - i + 1 = 1 := by omega
      simp [this]
    · rw [if_neg h2]
      simp only [List.nil_append]
      have hlen : act.end_pos < i + 1 + rest.length := by
        simp only [List.length_cons] at hlt; omega
      rw [ih (i + 1) (by omega) (by omega) hlen]
      have : act.end_pos - i + 1 = (act.end_pos - (i + 1) + 1) + 1 := by omega
      rw [this]
      simp only [List.range'_succ]

/-- With `start_pos ≤ end_pos` inside the text, the render loop shows
highlighted exactly the positions `start_pos .. end_pos`. -/
theorem highlightScan_render_before (act : Action) (text : List Nat) :
    ∀ (i : Nat), i ≤ act.start_pos → act.start_pos ≤ act.end_pos →
      act.end_pos < i + text.length →
      highlightScan (render_loop act text i []) false i
        = List.range' act.start_pos (act.end_pos - act.start_pos + 1) := by
  induction text with
  | nil => intro i h0 h1 h2; simp at h2; omega
  | cons ch rest ih =>
    intro i hle hse hlt
    simp only [List.length_cons] at hlt
    rw [render_loop_cons]
    by_cases h1 : i = act.start_pos
    · rw [if_pos h1]
      simp only [List.singleton_append]
      rw [highlightScan_start, highlightScan_putchar, if_pos rfl]
      by_cases h2 : i = act.end_pos
      · rw [if_pos h2]
        simp only [List.singleton_append]
        rw [highlightScan_end,
          highlightScan_render_after act rest (i + 1) false (by omega) (by omega)]
        have : act.end_pos - act.start_pos + 1 = 1 := by omega
        simp [this, h1]
      · rw [if_neg h2]
        simp only [List.nil_append]
        rw [highlightScan_render_inside act rest (i + 1) (by omega) (by omega) (by omega)]
        have : act.end_pos - act.start_pos + 1 = (act.end_pos - (i + 1) + 1) + 1 := by omega
        rw [this, h1]
        simp only [List.range'_succ]
    · have h2 : i ≠ act.end_pos := by omega
      rw [if_neg h1, if_neg h2]
      simp only [List.nil_append]
      rw [highlightScan_putchar]
      simp only [Bool.false_eq_true, if_false]
      exact ih (i + 1) (by omega) hse (by omega)

/-- One render pass on an action with `start_pos ≤ end_pos < strlen(text)`
shows highlighted exactly the positions `start_pos .. end_pos`. -/
theorem render_pass_highlights_in_bounds (text : List Nat) (acts : Actions) (k : Nat)
    (act : Action) (hact : (acts.items.getD [])[k]? = some act)
    (hse : act.start_pos ≤ act.end_pos) (het : act.end_pos < text.length) :
    ∃ out, render_pass text acts k [] = some out ∧
      highlightedPositions out = List.range' act.start_pos (act.end_pos - act.start_pos + 1) := by
  refine ⟨render_loop act text 0 ([] ++ [Out.printf clear_screen]), by simp only [render_pass, hact],
    ?_⟩
  rw [render_loop_acc]
  simp only [List.nil_append, List.singleton_append, highlightedPositions]
  rw [highlightScan_clear]
  exact highlightScan_render_before act text 0 (by omega) hse (by omega)

theorem innerEmptyPair_loaded (t0 : SelectableText) :
    selectableText_loadFmtString allocOk (some (cstr "a``b")) (some t0)
      = (true, some innerEmptyPair) :=
  (loadFmtString_eq_true_iff allocOk _ t0 _).2 ⟨rfl, rfl, by decide, by decide⟩

/-- C15, evaluated where it fails. The format string `a`, two backticks, `b`
loads into the text `ab` with the single action `(1, 0)`, in whose range
`[1, 0]` no position lies. One render pass with that action focused writes `a`,
the end-highlight sequence, the begin-highlight sequence and `b`: the character
at position 1, after `end_pos`, is shown highlighted, and no end-highlight
follows it. -/
theorem render_pass_highlights_after_empty_pair :
    selectableText_loadFmtString allocOk (some (cstr "a``b")) (some unloaded)
      = (true, some innerEmptyPair) ∧
    render_pass (cstr "ab") innerEmptyPair.actions 0 []
      = some [Out.printf clear_screen, Out.putchar 97, Out.printf end_reverse,
              Out.printf start_reverse, Out.putchar 98] ∧
    highlightedPositions [Out.printf clear_screen, Out.putchar 97, Out.printf end_reverse,
      Out.printf start_reverse, Out.putchar 98] = [1] ∧
    (List.range (cstr "ab").length).filter (fun p => decide (1 ≤ p ∧ p ≤ 0)) = [] :=
  ⟨innerEmptyPair_loaded unloaded, by decide, by decide, by decide⟩

end SelText
